import Mathlib

/-
Verification development for the ADC data-enrichment pipeline
(antigen.py, payload_linker.py, disease_enhanced.py, drug.py,
unified_enrichment.py).

The Python code operates on JSON-like trees (nested dicts/lists loaded
with json.load).  We embed those values as the inductive type `JVal`,
with Python-dict semantics for key lookup (`jget`), key assignment
(`jset`, in-place replacement when the key exists, append otherwise)
and truthiness (`jTruthy`).
-/

namespace Ontology

inductive JVal where
  | null : JVal
  | str : String → JVal
  | num : Rat → JVal
  | bool : Bool → JVal
  | arr : List JVal → JVal
  | obj : List (String × JVal) → JVal

mutual

def JVal.beq : JVal → JVal → Bool
  | .null, .null => true
  | .str a, .str b => a == b
  | .num a, .num b => a == b
  | .bool a, .bool b => a == b
  | .arr a, .arr b => JVal.beqList a b
  | .obj a, .obj b => JVal.beqObjList a b
  | _, _ => false

def JVal.beqList : List JVal → List JVal → Bool
  | [], [] => true
  | a :: as, b :: bs => JVal.beq a b && JVal.beqList as bs
  | _, _ => false

def JVal.beqObjList : List (String × JVal) → List (String × JVal) → Bool
  | [], [] => true
  | a :: as, b :: bs => (a.1 == b.1 && JVal.beq a.2 b.2) && JVal.beqObjList as bs
  | _, _ => false

end

mutual

theorem JVal.beq_refl : ∀ a : JVal, JVal.beq a a = true
  | .null => rfl
  | .str a => by simp [JVal.beq]
  | .num a => by simp [JVal.beq]
  | .bool a => by simp [JVal.beq]
  | .arr a => by simp [JVal.beq, JVal.beqList_refl a]
  | .obj a => by simp [JVal.beq, JVal.beqObjList_refl a]

theorem JVal.beqList_refl : ∀ as : List JVal, JVal.beqList as as = true
  | [] => rfl
  | a :: as => by
    simp [JVal.beqList, JVal.beq_refl a, JVal.beqList_refl as]

theorem JVal.beqObjList_refl :
    ∀ as : List (String × JVal), JVal.beqObjList as as = true
  | [] => rfl
  | a :: as => by
    simp [JVal.beqObjList, JVal.beq_refl a.2, JVal.beqObjList_refl as]

end

mutual

theorem JVal.eq_of_beq : ∀ {a b : JVal}, JVal.beq a b = true → a = b
  | .null, .null, _ => rfl
  | .str a, .str b, h => by simp [JVal.beq] at h; simp [h]
  | .num a, .num b, h => by simp [JVal.beq] at h; simp [h]
  | .bool a, .bool b, h => by simp [JVal.beq] at h; simp [h]
  | .arr a, .arr b, h => by
    rw [JVal.eqList_of_beqList (a := a) (b := b) h]
  | .obj a, .obj b, h => by
    rw [JVal.eqObjList_of_beqObjList (a := a) (b := b) h]
  | .null, .str _, h | .null, .num _, h | .null, .bool _, h
  | .null, .arr _, h | .null, .obj _, h
  | .str _, .null, h | .str _, .num _, h | .str _, .bool _, h
  | .str _, .arr _, h | .str _, .obj _, h
  | .num _, .null, h | .num _, .str _, h | .num _, .bool _, h
  | .num _, .arr _, h | .num _, .obj _, h
  | .bool _, .null, h | .bool _, .str _, h | .bool _, .num _, h
  | .bool _, .arr _, h | .bool _, .obj _, h
  | .arr _, .null, h | .arr _, .str _, h | .arr _, .num _, h
  | .arr _, .bool _, h | .arr _, .obj _, h
  | .obj _, .null, h | .obj _, .str _, h | .obj _, .num _, h
  | .obj _, .bool _, h | .obj _, .arr _, h => by simp [JVal.beq] at h

theorem JVal.eqList_of_beqList :
    ∀ {a b : List JVal}, JVal.beqList a b = true → JVal.arr a = JVal.arr b
  | [], [], _ => rfl
  | x :: xs, y :: ys, h => by
    simp only [JVal.beqList, Bool.and_eq_true] at h
    have h1 := JVal.eq_of_beq h.1
    have h2 := JVal.eqList_of_beqList (a := xs) (b := ys) h.2
    have h2' : xs = ys := by injection h2
    rw [h1, h2']
  | [], _ :: _, h => by simp [JVal.beqList] at h
  | _ :: _, [], h => by simp [JVal.beqList] at h

theorem JVal.eqObjList_of_beqObjList :
    ∀ {a b : List (String × JVal)},
      JVal.beqObjList a b = true → JVal.obj a = JVal.obj b
  | [], [], _ => rfl
  | x :: xs, y :: ys, h => by
    simp only [JVal.beqObjList, Bool.and_eq_true, beq_iff_eq] at h
    have h1 := h.1.1
    have h2 := JVal.eq_of_beq h.1.2
    have h3 := JVal.eqObjList_of_beqObjList (a := xs) (b := ys) h.2
    have h3' : xs = ys := by injection h3
    have hxy : x = y := by
      calc x = (x.1, x.2) := rfl
        _ = (y.1, y.2) := by rw [h1, h2]
        _ = y := rfl
    rw [hxy, h3']
  | [], _ :: _, h => by simp [JVal.beqObjList] at h
  | _ :: _, [], h => by simp [JVal.beqObjList] at h

end

instance : BEq JVal := ⟨JVal.beq⟩

instance : LawfulBEq JVal where
  eq_of_beq := JVal.eq_of_beq
  rfl := JVal.beq_refl _

instance : DecidableEq JVal := fun a b =>
  if h : JVal.beq a b = true then .isTrue (JVal.eq_of_beq h)
  else .isFalse (fun he => h (he ▸ JVal.beq_refl a))

abbrev JObj := List (String × JVal)

/-- Python `d.get(k)` / `d[k]` lookup on a dict: the first binding wins
(builders that model dict update shadow earlier bindings, so the first
binding is the most recent write). -/
def jget (o : JObj) (k : String) : Option JVal :=
  match o with
  | [] => none
  | p :: t => if p.1 = k then some p.2 else jget t k

/-- Replace every binding of key `k` by `(k, v)`, keeping its position. -/
def replaceKey (o : JObj) (k : String) (v : JVal) : JObj :=
  match o with
  | [] => []
  | p :: t => (if p.1 = k then (k, v) else p) :: replaceKey t k v

def hasKey (o : JObj) (k : String) : Bool :=
  match o with
  | [] => false
  | p :: t => p.1 = k || hasKey t k

/-- Python `d[k] = v`: replace the binding in place when the key is
present (insertion order preserved), otherwise append at the end. -/
def jset (o : JObj) (k : String) (v : JVal) : JObj :=
  if hasKey o k then replaceKey o k v else o ++ [(k, v)]

/-- Python truthiness of a JSON value. -/
def jTruthy : JVal → Bool
  | .null => false
  | .str s => s ≠ ""
  | .num q => q ≠ 0
  | .bool b => b
  | .arr xs => ¬ xs.isEmpty
  | .obj fs => ¬ fs.isEmpty

/-- Association-list lookup keyed by arbitrary JSON values (used for the
entry-id → drug-name → enrichment maps of the merge engine, whose keys
are whatever values the `id`/`drugName` fields held). -/
def alFindJ {α : Type} (k : JVal) (m : List (JVal × α)) : Option α :=
  match m with
  | [] => none
  | p :: t => if p.1 = k then some p.2 else alFindJ k t

theorem jget_replaceKey_self (o : JObj) (k : String) (v : JVal)
    (h : hasKey o k = true) : jget (replaceKey o k v) k = some v := by
  induction o with
  | nil => simp [hasKey] at h
  | cons p t ih =>
    by_cases hp : p.1 = k
    · simp [jget, replaceKey, hp]
    · simp only [hasKey, hp, decide_False, Bool.false_or] at h
      simp [jget, replaceKey, hp, ih h]

theorem jget_replaceKey_ne (o : JObj) (k k' : String) (v : JVal)
    (h : k' ≠ k) : jget (replaceKey o k v) k' = jget o k' := by
  induction o with
  | nil => simp [jget, replaceKey]
  | cons p t ih =>
    by_cases hp : p.1 = k
    · have hne : ¬ (k = k') := fun hc => h hc.symm
      have hne2 : ¬ (p.1 = k') := by rw [hp]; exact hne
      simp [jget, replaceKey, hp, hne, hne2, ih]
    · by_cases hpk' : p.1 = k'
      · simp [jget, replaceKey, hp, hpk', h]
      · simp [jget, replaceKey, hp, hpk', ih]

theorem jget_append_single_self (o : JObj) (k : String) (v : JVal)
    (h : hasKey o k = false) : jget (o ++ [(k, v)]) k = some v := by
  induction o with
  | nil => simp [jget]
  | cons p t ih =>
    simp only [hasKey, Bool.or_eq_false_iff, decide_eq_false_iff_not] at h
    simp [jget, h.1, ih h.2]

theorem jget_append_single_ne (o : JObj) (k k' : String) (v : JVal)
    (h : k' ≠ k) : jget (o ++ [(k, v)]) k' = jget o k' := by
  induction o with
  | nil =>
    have hne : ¬ (k = k') := fun hc => h hc.symm
    simp [jget, hne]
  | cons p t ih =>
    by_cases hpk' : p.1 = k'
    · simp [jget, hpk']
    · simp [jget, hpk', ih]

theorem jget_jset_self (o : JObj) (k : String) (v : JVal) :
    jget (jset o k v) k = some v := by
  unfold jset
  cases h : hasKey o k with
  | true => simp only [if_true]; exact jget_replaceKey_self o k v h
  | false => simp only [Bool.false_eq_true, if_false]
             exact jget_append_single_self o k v h

theorem jget_jset_ne (o : JObj) (k k' : String) (v : JVal) (h : k' ≠ k) :
    jget (jset o k v) k' = jget o k' := by
  unfold jset
  cases ha : hasKey o k with
  | true => simp only [if_true]; exact jget_replaceKey_ne o k k' v h
  | false => simp only [Bool.false_eq_true, if_false]
             exact jget_append_single_ne o k k' v h

theorem hasKey_replaceKey (o : JObj) (k : String) (v : JVal) :
    hasKey (replaceKey o k v) k = hasKey o k := by
  induction o with
  | nil => rfl
  | cons p t ih =>
    by_cases hp : p.1 = k
    · simp [hasKey, replaceKey, hp]
    · simp [hasKey, replaceKey, hp, ih]

theorem replaceKey_replaceKey (o : JObj) (k : String) (a b : JVal) :
    replaceKey (replaceKey o k a) k b = replaceKey o k b := by
  induction o with
  | nil => rfl
  | cons p t ih =>
    by_cases hp : p.1 = k
    · simp [replaceKey, hp, ih]
    · simp [replaceKey, hp, ih]

theorem replaceKey_of_not_hasKey (o : JObj) (k : String) (v : JVal)
    (h : hasKey o k = false) : replaceKey o k v = o := by
  induction o with
  | nil => rfl
  | cons p t ih =>
    simp only [hasKey, Bool.or_eq_false_iff, decide_eq_false_iff_not] at h
    simp [replaceKey, h.1, ih h.2]

theorem hasKey_append_single (o : JObj) (k : String) (v : JVal) :
    hasKey (o ++ [(k, v)]) k = true := by
  induction o with
  | nil => simp [hasKey]
  | cons p t ih => simp [hasKey, ih]

theorem replaceKey_append_single_self (o : JObj) (k : String) (a b : JVal)
    (h : hasKey o k = false) :
    replaceKey (o ++ [(k, a)]) k b = o ++ [(k, b)] := by
  induction o with
  | nil => simp [replaceKey]
  | cons p t ih =>
    simp only [hasKey, Bool.or_eq_false_iff, decide_eq_false_iff_not] at h
    simp [replaceKey, h.1, ih h.2]

theorem jset_jset_same (o : JObj) (k : String) (a b : JVal) :
    jset (jset o k a) k b = jset o k b := by
  unfold jset
  cases h : hasKey o k with
  | true => simp only [h, if_true, hasKey_replaceKey, replaceKey_replaceKey]
  | false =>
    simp only [Bool.false_eq_true, if_false, hasKey_append_single, if_true]
    exact replaceKey_append_single_self o k a b h

/-! ### antigen.py : normalization and the HGNC reference index -/

def isKeyChar (c : Char) : Bool :=
  (decide ('A' ≤ c) && decide (c ≤ 'Z')) || (decide ('0' ≤ c) && decide (c ≤ '9'))

/-- `normalize_symbol` (antigen.py line 29): uppercase the string, then
drop every character outside `[A-Z0-9]`. -/
def normalizeSymbol (s : String) : String :=
  String.mk ((s.toList.map Char.toUpper).filter isKeyChar)

/-- Split a character list at every separator character (keeping empty
pieces), like Python `re.split` with a single-character class. -/
def splitCharsAux (p : Char → Bool) : List Char → List Char → List (List Char)
  | [], acc => [acc.reverse]
  | c :: cs, acc =>
    if p c then acc.reverse :: splitCharsAux p cs []
    else splitCharsAux p cs (c :: acc)

def splitChars (p : Char → Bool) (s : String) : List String :=
  (splitCharsAux p s.toList []).map String.mk

/-- Python `re.split(r"[|,]", s)`: split on every `|` or `,`. -/
def splitAliasField (s : String) : List String :=
  splitChars (fun c => c == '|' || c == ',') s

/-- Python `str.strip()`: drop leading and trailing whitespace. -/
def isPySpace (c : Char) : Bool :=
  c == ' ' || c == '\t' || c == '\n' || c == '\r' || c == '\x0b' || c == '\x0c'

def pyStrip (s : String) : String :=
  String.mk (((s.toList.dropWhile isPySpace).reverse.dropWhile isPySpace).reverse)

/-- One row of the HGNC vocabulary table, with the columns `query_hgnc`
and `build_hgnc_maps` read.  `alias_symbol` is the raw delimited field as
the code sees it after `str(...)` (a pandas NaN shows up as `"nan"`);
`ensembl_gene_id`, `locus_type` and `gene_group` are `none` when the cell
is missing/NaN. -/
structure HgncRow where
  symbol : String
  hgnc_id : String
  ensembl_gene_id : Option String
  alias_symbol : String
  locus_type : Option String
  gene_group : Option String
  deriving DecidableEq, Repr

/-- Last-write-wins string-keyed map, represented with the most recent
insertion first. -/
def mapFind (k : String) (m : List (String × HgncRow)) : Option HgncRow :=
  match m with
  | [] => none
  | p :: t => if p.1 = k then some p.2 else mapFind k t

def mapKeys (m : List (String × HgncRow)) : List String := m.map (·.1)

/-- `build_hgnc_maps` symbol map (antigen.py line 69): one insertion per
row keyed by the normalized symbol; a later row overwrites an earlier
one with the same key (dict comprehension semantics). -/
def buildSymbolMap (rows : List HgncRow) : List (String × HgncRow) :=
  rows.foldl (fun m row => (normalizeSymbol row.symbol, row) :: m) []

/-- `build_hgnc_maps` alias map (antigen.py lines 70-77): split the alias
field on `|`/`,`, normalize each piece, insert the non-empty keys;
duplicates overwrite silently. -/
def buildAliasMap (rows : List HgncRow) : List (String × HgncRow) :=
  rows.foldl (fun m row =>
    (splitAliasField row.alias_symbol).foldl (fun m2 a =>
      let aliasClean := normalizeSymbol a
      if aliasClean ≠ "" then (aliasClean, row) :: m2 else m2) m) []

/-! ### difflib: SequenceMatcher.ratio and get_close_matches
(the stdlib similarity engine `query_hgnc` calls, modelled without the
junk heuristics, which only engage for sequences of 200+ elements) -/

/-- Length of the longest common prefix of two character lists. -/
def commonRunLen : List Char → List Char → Nat
  | x :: xs, y :: ys => if x = y then commonRunLen xs ys + 1 else 0
  | _, _ => 0

/-- `SequenceMatcher.find_longest_match` over whole sequences: the
longest block with `a.drop i` and `b.drop j` agreeing on `k` characters,
maximizing `k`, breaking ties toward the smallest `i`, then smallest `j`. -/
def longestBlock (a b : List Char) : Nat × Nat × Nat :=
  (List.range a.length).foldl (fun best i =>
    (List.range b.length).foldl (fun best2 j =>
      let k := commonRunLen (a.drop i) (b.drop j)
      if k > best2.2.2 then (i, j, k) else best2) best) (0, 0, 0)

/-- Total size of all matching blocks (`get_matching_blocks`): take the
longest block, recurse on the pieces to its left and to its right.  The
fuel argument dominates the sum of the two lengths, which shrinks at
every recursive call, so the fuel never runs out when seeded with
`a.length + b.length`. -/
def matchSumF : Nat → List Char → List Char → Nat
  | 0, _, _ => 0
  | fuel + 1, a, b =>
    let ijk := longestBlock a b
    let i := ijk.1
    let j := ijk.2.1
    let k := ijk.2.2
    if k = 0 then 0
    else matchSumF fuel (a.take i) (b.take j) + k +
         matchSumF fuel (a.drop (i + k)) (b.drop (j + k))

def matchSum (a b : List Char) : Nat := matchSumF (a.length + b.length) a b

/-- `SequenceMatcher(None, a, b).ratio()` = `2*M/(len a + len b)`
(`1` when both are empty, per `_calculate_ratio`). -/
def seqRatio (a b : String) : Rat :=
  let la := a.toList.length
  let lb := b.toList.length
  if la + lb = 0 then 1
  else mkRat (2 * matchSum a.toList b.toList) (la + lb)

/-- Python string `<`: lexicographic comparison of code points. -/
def charListLt : List Char → List Char → Bool
  | [], [] => false
  | [], _ :: _ => true
  | _ :: _, [] => false
  | a :: as, b :: bs =>
    if a < b then true else if b < a then false else charListLt as bs

/-- `difflib.get_close_matches(word, possibilities, n=1, cutoff)`: keep
the possibilities whose ratio against `word` reaches the cutoff; the
`heapq.nlargest` step over `(ratio, string)` pairs makes the winner the
maximum by ratio with ratio ties resolved toward the lexicographically
larger string. -/
def getCloseMatches1 (word : String) (possibilities : List String)
    (cutoff : Rat) : Option String :=
  (possibilities.filter (fun x => cutoff ≤ seqRatio x word)).foldl
    (fun best x =>
      match best with
      | none => some x
      | some b =>
        if seqRatio b word < seqRatio x word ∨
           (seqRatio x word = seqRatio b word ∧ charListLt b.toList x.toList)
        then some x else some b)
    none

/-! ### antigen.py : query_hgnc -/

def optStr : Option String → JVal
  | some s => .str s
  | none => .null

/-- The result dict `query_hgnc` builds when a row matched (antigen.py
lines 110-122); note it carries no `score` key. -/
def hgncFound (symbol : String) (row : HgncRow) (status : String) : JObj :=
  let geneGroupList : List JVal :=
    match row.gene_group with
    | some g => (((splitChars (fun c => c == '|') g).map pyStrip).filter
        (fun s => s ≠ "")).map JVal.str
    | none => []
  [("input", .str symbol),
   ("hgnc_symbol", .str row.symbol),
   ("hgnc_id", .str row.hgnc_id),
   ("ensembl_gene_id", optStr row.ensembl_gene_id),
   ("synonyms", .arr ((splitAliasField row.alias_symbol).map JVal.str)),
   ("locus_type", optStr row.locus_type),
   ("gene_group", .arr geneGroupList),
   ("status", .str status)]

/-- The result dict of the `unknown` branch (antigen.py lines 99-108);
all identifier fields are null and there is no `score` key. -/
def hgncUnknown (symbol : String) : JObj :=
  [("input", .str symbol),
   ("hgnc_symbol", .null),
   ("hgnc_id", .null),
   ("ensembl_gene_id", .null),
   ("synonyms", .arr []),
   ("locus_type", .null),
   ("gene_group", .arr []),
   ("status", .str "unknown")]

/-- `query_hgnc` (antigen.py lines 80-122): normalize, try the symbol
map, then the alias map, then `get_close_matches` over the union of both
key sets, else the unknown result.  (If the fuzzy key were in neither
map the original would crash on `row.get`; that branch is unreachable
because the key is drawn from the union of the key sets.) -/
def queryHgnc (symbol : String) (symbolMap aliasMap : List (String × HgncRow))
    (cutoff : Rat) : JObj :=
  let cleaned := normalizeSymbol symbol
  match mapFind cleaned symbolMap with
  | some row => hgncFound symbol row "canonical"
  | none =>
    match mapFind cleaned aliasMap with
    | some row => hgncFound symbol row "alias_match"
    | none =>
      let allKeys := (mapKeys symbolMap ++ mapKeys aliasMap).dedup
      match getCloseMatches1 cleaned allKeys cutoff with
      | some key =>
        (match mapFind key symbolMap with
         | some row => hgncFound symbol row "fuzzy_match"
         | none =>
           match mapFind key aliasMap with
           | some row => hgncFound symbol row "fuzzy_match"
           | none => hgncUnknown symbol)
      | none => hgncUnknown symbol

/-- `expand_antigen_name` (antigen.py lines 43-52), identical to
`expand_component_name` (payload_linker.py lines 54-59).  The regex
`^(.*?)\s*\((.*?)\)$` matches exactly when the string ends in `)` and
contains a `(` somewhere before it; the lazy first group makes the split
happen at the first `(`, and the second group runs to the final `)`.
Both pieces are then stripped. -/
def expandAntigenName (name : String) : List String :=
  let cs := name.toList
  match cs.findIdx? (· = '(') with
  | some g =>
    if cs.getLast? = some ')' ∧ g + 1 < cs.length then
      [pyStrip (String.mk (cs.take g)), pyStrip (String.mk ((cs.drop (g + 1)).dropLast))]
    else [pyStrip name]
  | none => [pyStrip name]

/-! ### payload_linker.py : ChEMBL component resolution -/

/-- `expand_component_name` (payload_linker.py lines 54-59), identical
to `expand_antigen_name`. -/
def expandComponentName (name : String) : List String :=
  expandAntigenName name

/-- Reading a field of a JSON value with Python `.get` semantics (missing
key and explicit null both surface as null). -/
def jvalGet (v : JVal) (k : String) : JVal :=
  match v with
  | .obj o => (jget o k).getD .null
  | _ => .null

/-- The external ChEMBL client interface used by
`fetch_full_chembl_data` (payload_linker.py lines 64-111): `search`
models `molecule_client.search` (the result list, or a raised
exception), `getMol` models `molecule_client.get(chembl_id)`. -/
structure ChemblClient where
  search : String → Except String (List JVal)
  getMol : JVal → Except String JVal

/-- `[x['level5'] for x in molecule_details.get('atc_classifications', [])
if 'level5' in x]`. -/
def atcLevel5List (md : JObj) : List JVal :=
  match jget md "atc_classifications" with
  | some (.arr xs) => xs.filterMap (fun x =>
      match x with
      | .obj o => jget o "level5"
      | _ => none)
  | _ => []

/-- `fetch_full_chembl_data` (payload_linker.py lines 69-111).  Only the
initial `molecule_client.search` call sits inside the try/except
("Handle API errors gracefully"): an exception there yields `None`,
i.e. `.ok none`.  An exception raised by the follow-up
`molecule_client.get` call is not caught and propagates, modelled by the
`.error` outcome.  The `lru_cache` decorator memoizes but does not
change the value, so it is not modelled. -/
def fetchFullChemblData (client : ChemblClient) (componentName : String) :
    Except String (Option JVal) :=
  match client.search componentName with
  | .error _ => .ok none
  | .ok results =>
    match results.head? with
    | none => .ok none
    | some molInfo =>
      match molInfo with
      | .obj mi =>
        match jget mi "molecule_chembl_id" with
        | none => .error "KeyError: molecule_chembl_id"
        | some chemblId =>
          match client.getMol chemblId with
          | .error e => .error e
          | .ok details =>
            match details with
            | .obj md =>
              if (jget md "molecule_type").getD .null ≠ .str "Small molecule" then
                .ok none
              else if ¬ jTruthy ((jget mi "pref_name").getD .null) ∧
                      (jget md "max_phase").getD .null = .null then
                .ok none
              else
                let moleculeInfo : JObj :=
                  [("ChEMBL ID", chemblId),
                   ("Preferred Name", (jget mi "pref_name").getD .null),
                   ("Max Phase", (jget md "max_phase").getD .null),
                   ("First Approval", (jget md "first_approval").getD .null),
                   ("Drug Type", (jget md "drug_type").getD .null),
                   ("Molecule Type", (jget md "molecule_type").getD .null),
                   ("Withdrawn", (jget md "withdrawn_flag").getD .null),
                   ("Black Box Warning", (jget md "black_box_warning").getD .null),
                   ("ATC Codes", .arr (atcLevel5List md)),
                   ("USAN Stem", (jget md "usan_stem").getD .null),
                   ("Indication Class", (jget md "indication_class").getD .null)]
                .ok (some (.obj
                  [("ChEMBL ID", chemblId),
                   ("Preferred Name", (jget mi "pref_name").getD .null),
                   ("All Aliases", .arr []),
                   ("Molecule Info", .obj moleculeInfo)]))
            | _ => .error "TypeError: molecule details"
      | _ => .error "TypeError: search result"

/-- `best_component_match` (payload_linker.py lines 113-122): expand the
parenthetical, skip variants whose stripped length is below 3 ("Skip
very short search terms that will cause API errors"), query ChEMBL for
the rest, and return the first truthy result with a truthy `ChEMBL ID`;
an uncaught exception from a query propagates. -/
def bestComponentMatchAux (client : ChemblClient) :
    List String → Except String (Option JVal)
  | [] => .ok none
  | name :: rest =>
    if (pyStrip name).length < 3 then bestComponentMatchAux client rest
    else
      match fetchFullChemblData client name with
      | .error e => .error e
      | .ok r =>
        match r with
        | some v =>
          if jTruthy v ∧ jTruthy (jvalGet v "ChEMBL ID") then .ok (some v)
          else bestComponentMatchAux client rest
        | none => bestComponentMatchAux client rest

def bestComponentMatch (client : ChemblClient) (rawName : String) :
    Except String (Option JVal) :=
  bestComponentMatchAux client (expandComponentName rawName)

/-! ### antigen.py : enrich_json -/

def joinSep : String → List String → String
  | _, [] => ""
  | _, [x] => x
  | sep, x :: y :: xs => x ++ sep ++ joinSep sep (y :: xs)

/-- `", ".join(result.get("gene_group", [])) if result.get("gene_group")
else None` (antigen.py lines 205 and 215). -/
def familyJoin (result : JObj) : JVal :=
  match jget result "gene_group" with
  | some g =>
    if jTruthy g then
      match g with
      | .arr gs => .str (joinSep ", " (gs.map fun v =>
          match v with
          | .str s => s
          | _ => ""))
      | _ => .null
    else .null
  | none => .null

/-- One `match_entry` dict of `enrich_json` (antigen.py lines 191-218).
The original initializes the five keys and then overwrites values in
place, so the key order is fixed. -/
def matchEntryOf (result : JObj) : JVal :=
  let status := jget result "status"
  let isMatch := status ≠ some (.str "unknown")
  if status = some (.str "taca_match") then
    .obj [("input", (jget result "input").getD .null),
          ("is_match", .bool isMatch),
          ("match_type", .str "TACA"),
          ("HGNC", .null),
          ("TACA", .obj
            [("subtype", (jget result "taca_subtype").getD .null),
             ("family", familyJoin result)])]
  else if isMatch then
    .obj [("input", (jget result "input").getD .null),
          ("is_match", .bool isMatch),
          ("match_type", .str "HGNC"),
          ("HGNC", .obj
            [("symbol", (jget result "hgnc_symbol").getD .null),
             ("hgnc_id", (jget result "hgnc_id").getD .null),
             ("ensembl_gene_id", (jget result "ensembl_gene_id").getD .null),
             ("synonyms", (jget result "synonyms").getD .null),
             ("locus", (jget result "locus_type").getD .null),
             ("family", familyJoin result)]),
          ("TACA", .null)]
  else
    .obj [("input", (jget result "input").getD .null),
          ("is_match", .bool isMatch),
          ("match_type", .null),
          ("HGNC", .null),
          ("TACA", .null)]

/-- The per-drug body of `enrich_json` (antigen.py lines 176-220): read
`targetAntigenCanonicalized` (string, list of strings, or anything else
contributing no results), look each antigen up in the precomputed result
table, skip falsy results, and assign `drug["targetOntology"]`. -/
def enrichJsonDrug (lookup : JObj) (drug : JVal) : JVal :=
  match drug with
  | .obj d =>
    let results : List JVal :=
      match jget d "targetAntigenCanonicalized" with
      | some (.str ag) => [(jget lookup ag).getD .null]
      | some (.arr ags) => ags.filterMap (fun a =>
          match a with
          | .str s => some ((jget lookup s).getD .null)
          | _ => none)
      | _ => []
    let matchResults := (results.filter (fun r => jTruthy r)).filterMap
      (fun r =>
        match r with
        | .obj ro => some (matchEntryOf ro)
        | _ => none)
    .obj (jset d "targetOntology" (.arr matchResults))
  | _ => drug

def enrichJsonEntry (lookup : JObj) (entry : JVal) : JVal :=
  match entry with
  | .obj e =>
    match jget e "extractedDrugs" with
    | some (.arr ds) =>
      .obj (jset e "extractedDrugs" (.arr (ds.map (enrichJsonDrug lookup))))
    | _ => entry
  | _ => entry

/-- `enrich_json` (antigen.py lines 174-222) over the whole record tree. -/
def enrichJson (data : List JVal) (lookup : JObj) : List JVal :=
  data.map (enrichJsonEntry lookup)

/-! ### unified_enrichment.py : the merge engine

`merge_company_enrichments`, `merge_trial_design_enrichments` and
`merge_biomarker_strategy_enrichments` (lines 296-375) share one shape,
differing only in the `ontology` key written and the list of fields
projected out of the enrichment tree's drug; we embed that shape once
and instantiate it three times. -/

/-- The per-drug enrichment record of one ontology-domain merge: the
named fields read with plain `drug.get(f)`. -/
def extractProj (fields : List String) (d : JObj) : JVal :=
  .obj (fields.map fun f => (f, (jget d f).getD .null))

/-- The drug-name → enrichment submap of one entry: drugs with falsy
names are skipped; a repeated name keeps the last drug (dict
assignment). -/
def buildSubMap (f : JObj → JVal) (ds : List JVal) : List (JVal × JVal) :=
  ds.foldl (fun sm drug =>
    match drug with
    | .obj d =>
      if jTruthy ((jget d "drugName").getD .null) then
        (((jget d "drugName").getD .null), f d) :: sm
      else sm
    | _ => sm) []

/-- The `entry-id → drug-name → enrichments` table built in the first
half of each merge method: entries with falsy ids are skipped and the
submap is reset per entry (so a duplicate entry id keeps only the last
entry). -/
def buildEntryMap (f : JObj → JVal) (data : List JVal) :
    List (JVal × List (JVal × JVal)) :=
  data.foldl (fun m entry =>
    match entry with
    | .obj e =>
      if jTruthy ((jget e "id").getD .null) then
        (((jget e "id").getD .null),
         (match jget e "extractedDrugs" with
          | some (.arr ds) => buildSubMap f ds
          | _ => [])) :: m
      else m
    | _ => m) []

def buildDomainMap (fields : List String) (data : List JVal) :
    List (JVal × List (JVal × JVal)) :=
  buildEntryMap (extractProj fields) data

/-- The per-drug body of the second half of each merge method: when the
drug's name is a key of the entry's submap, ensure `drug["ontology"]`
exists (`{}` if absent) and assign `drug["ontology"][domKey]`. -/
def applyDomainDrug (domKey : String) (sub : List (JVal × JVal))
    (drug : JVal) : JVal :=
  match drug with
  | .obj d =>
    match alFindJ ((jget d "drugName").getD .null) sub with
    | some enr =>
      let d1 := if (jget d "ontology").isSome then d
                else jset d "ontology" (.obj [])
      match jget d1 "ontology" with
      | some (.obj o) => .obj (jset d1 "ontology" (.obj (jset o domKey enr)))
      | _ => drug
    | none => drug
  | _ => drug

/-- The per-entry body of the second half of each merge method,
parameterized by the per-drug update. -/
def applyEntryWith (upd : List (JVal × JVal) → JVal → JVal)
    (m : List (JVal × List (JVal × JVal))) (entry : JVal) : JVal :=
  match entry with
  | .obj e =>
    match alFindJ ((jget e "id").getD .null) m with
    | some sub =>
      match jget e "extractedDrugs" with
      | some (.arr ds) =>
        .obj (jset e "extractedDrugs" (.arr (ds.map (upd sub))))
      | _ => entry
    | none => entry
  | _ => entry

def applyDomainEntry (domKey : String)
    (m : List (JVal × List (JVal × JVal))) (entry : JVal) : JVal :=
  applyEntryWith (applyDomainDrug domKey) m entry

/-- One ontology-domain merge pass (the common shape of
unified_enrichment.py lines 296-375). -/
def mergeDomainEnrichments (domKey : String) (fields : List String)
    (base data : List JVal) : List JVal :=
  base.map (applyDomainEntry domKey (buildDomainMap fields data))

def companyFields : List String :=
  ["companyCleaned", "companyOriginal", "companyConfidence"]

def trialDesignFields : List String :=
  ["trialDesignCleaned", "trialDesignOriginal", "trialDesignCategories",
   "trialDesignOrganizedCategories", "trialDesignConfidence"]

def biomarkerFields : List String :=
  ["biomarkerStrategyCleaned", "biomarkerStrategyOriginal",
   "biomarkerStrategyCategories", "biomarkerTechnologies",
   "biomarkerMolecules", "biomarkerComplexity",
   "biomarkerStrategyConfidence"]

/-- `merge_company_enrichments` (unified_enrichment.py lines 296-319). -/
def mergeCompanyEnrichments (base data : List JVal) : List JVal :=
  mergeDomainEnrichments "company" companyFields base data

/-- `merge_trial_design_enrichments` (lines 321-346). -/
def mergeTrialDesignEnrichments (base data : List JVal) : List JVal :=
  mergeDomainEnrichments "trial_design" trialDesignFields base data

/-- `merge_biomarker_strategy_enrichments` (lines 348-375). -/
def mergeBiomarkerStrategyEnrichments (base data : List JVal) : List JVal :=
  mergeDomainEnrichments "biomarker_strategy" biomarkerFields base data

/-- `merge_antigen_enrichments` (unified_enrichment.py lines 182-207):
same table shape, but the merge assigns the two top-level drug keys
`targetOntology` and `targetAntigenCanonicalized` instead of an
`ontology` entry, with an `.get(f, [])` default. -/
def extractAntigenPair (d : JObj) : JVal :=
  .obj [("targetOntology", (jget d "targetOntology").getD (.arr [])),
        ("targetAntigenCanonicalized",
          (jget d "targetAntigenCanonicalized").getD (.arr []))]

def buildAntigenMap (data : List JVal) : List (JVal × List (JVal × JVal)) :=
  buildEntryMap extractAntigenPair data

def applyAntigenDrug (sub : List (JVal × JVal)) (drug : JVal) : JVal :=
  match drug with
  | .obj d =>
    match alFindJ ((jget d "drugName").getD .null) sub with
    | some enr =>
      .obj (jset (jset d "targetOntology" (jvalGet enr "targetOntology"))
        "targetAntigenCanonicalized" (jvalGet enr "targetAntigenCanonicalized"))
    | none => drug
  | _ => drug

def applyAntigenEntry (m : List (JVal × List (JVal × JVal)))
    (entry : JVal) : JVal :=
  applyEntryWith applyAntigenDrug m entry

def mergeAntigenEnrichments (base data : List JVal) : List JVal :=
  base.map (applyAntigenEntry (buildAntigenMap data))

/-! ### unified_enrichment.py : enrich_single_drug and helpers -/

/-- `get_drug_ontology` (lines 494-514). -/
def getDrugOntology (d : JObj) : JVal :=
  let base : JObj :=
    [("chembl_id", .null), ("preferred_name", .null), ("max_phase", .null),
     ("mechanism_of_action", .arr []), ("targets", .arr []),
     ("indications", .arr []), ("match_status", .str "unknown")]
  let b1 := if hasKey d "drugNameChembl" ∧ jTruthy ((jget d "drugNameChembl").getD .null) then
      jset (jset base "preferred_name" ((jget d "drugNameChembl").getD .null))
        "match_status" (.str "chembl_match")
    else base
  let b2 := if hasKey d "mechanismOfActionChembl" ∧
      jTruthy ((jget d "mechanismOfActionChembl").getD .null) then
      jset b1 "mechanism_of_action" ((jget d "mechanismOfActionChembl").getD (.arr []))
    else b1
  .obj b2

/-- Python `s.split(sep)` for a non-empty separator string, fueled by
the length of the input (each step consumes at least one character, so
the fuel never runs out). -/
def splitOnStrAux (sep : List Char) :
    Nat → List Char → List Char → List (List Char)
  | 0, rem, acc => [acc.reverse ++ rem]
  | _ + 1, [], acc => [acc.reverse]
  | fuel + 1, c :: cs, acc =>
    if sep.isPrefixOf (c :: cs) then
      acc.reverse :: splitOnStrAux sep fuel ((c :: cs).drop sep.length) []
    else splitOnStrAux sep fuel cs (c :: acc)

def splitOnStr (sep s : String) : List String :=
  if sep.toList.isEmpty then [s]
  else (splitOnStrAux sep.toList (s.toList.length + 1) s.toList []).map String.mk

/-- `hgnc_data.get("family", "").split(", ") if hgnc_data.get("family")
else []` (line 545). -/
def familySplit (hgnc : JObj) : List JVal :=
  match jget hgnc "family" with
  | some f =>
    if jTruthy f then
      match f with
      | .str s => (splitOnStr ", " s).map .str
      | _ => []
    else []
  | none => []

/-- Synonym cleaning (lines 549-552 and 613-616): keep truthy strings
that are not `"nan"` and do not strip to empty. -/
def cleanSyn (v : JVal) : Bool :=
  match v with
  | .str s => s ≠ "" && s ≠ "nan" && pyStrip s ≠ ""
  | w => jTruthy w

/-- `get_antigen_ontology` (lines 516-561). -/
def getAntigenOntology (d : JObj) : JVal :=
  let base : JObj :=
    [("hgnc_symbol", .null), ("hgnc_id", .null), ("ensembl_gene_id", .null),
     ("synonyms", .arr []), ("locus_type", .null), ("gene_group", .arr []),
     ("taca_subtype", .null), ("taca_family", .null),
     ("match_status", .str "unknown")]
  if hasKey d "targetOntology" then
    match (jget d "targetOntology").getD (.arr []) with
    | .arr (firstMatch :: _) =>
      match firstMatch with
      | .obj fm =>
        let b1 := jset base "match_status" ((jget fm "match_type").getD (.str "unknown"))
        let b2 :=
          if jTruthy ((jget fm "HGNC").getD .null) then
            match (jget fm "HGNC").getD .null with
            | .obj hg =>
              let u := jset (jset (jset (jset (jset b1
                "hgnc_symbol" ((jget hg "symbol").getD .null))
                "hgnc_id" ((jget hg "hgnc_id").getD .null))
                "ensembl_gene_id" ((jget hg "ensembl_gene_id").getD .null))
                "locus_type" ((jget hg "locus").getD .null))
                "gene_group" (.arr (familySplit hg))
              let syns := (jget hg "synonyms").getD (.arr [])
              if jTruthy syns then
                match syns with
                | .arr ss => jset u "synonyms" (.arr (ss.filter cleanSyn))
                | _ => u
              else u
            | _ => b1
          else b1
        let b3 :=
          if jTruthy ((jget fm "TACA").getD .null) then
            match (jget fm "TACA").getD .null with
            | .obj tc =>
              jset (jset b2 "taca_subtype" ((jget tc "subtype").getD .null))
                "taca_family" ((jget tc "family").getD .null)
            | _ => b2
          else b2
        .obj b3
      | _ => .obj base
    | _ => .obj base
  else .obj base

/-- The score read in the primary-selection loop of
`get_disease_ontology` (line 588): `disease.get("match_score", 0)`. -/
def diseaseScore (v : JVal) : Rat :=
  match v with
  | .obj d =>
    match jget d "match_score" with
    | some (.num q) => q
    | some _ => 0
    | none => 0
  | _ => 0

/-- `disease.get("match_status", "unknown")` (line 589). -/
def diseaseStatus (v : JVal) : JVal :=
  match v with
  | .obj d => (jget d "match_status").getD (.str "unknown")
  | _ => .str "unknown"

/-- `best_disease.get("match_status")` as used in the guard of the
exact-match branch (line 592): a plain `.get`, defaulting to None. -/
def diseaseRawStatus (v : JVal) : Option JVal :=
  match v with
  | .obj d => jget d "match_status"
  | _ => none

/-- One iteration of the primary-selection loop of
`get_disease_ontology` (unified_enrichment.py lines 587-597): an
exact_match replaces a best that is not an exact_match; a non-exact
candidate is taken only while `best_disease is None` and its score
exceeds the best score. -/
def selectStep (acc : Option JVal × Rat) (disease : JVal) :
    Option JVal × Rat :=
  let bestIsExact : Bool :=
    match acc.1 with
    | some b => diseaseRawStatus b = some (.str "exact_match")
    | none => false
  if diseaseStatus disease = .str "exact_match" ∧ bestIsExact = false then
    (some disease, diseaseScore disease)
  else if diseaseStatus disease ≠ .str "exact_match" ∧
      acc.2 < diseaseScore disease ∧ acc.1 = none then
    (some disease, diseaseScore disease)
  else acc

/-- The primary-selection loop (lines 584-597), starting from
`best_disease = None, best_score = -1`. -/
def selectBestDisease (lst : List JVal) : Option JVal × Rat :=
  lst.foldl selectStep (none, -1)

/-- The base disease-ontology dict (lines 565-574). -/
def diseaseBase : JObj :=
  [("doid_id", .null), ("doid_label", .null), ("ncit_id", .null),
   ("ncit_label", .null), ("synonyms", .arr []),
   ("hierarchy_path", .arr []), ("match_status", .str "unknown"),
   ("all_diseases", .arr [])]

/-- `best_disease.get("hierarchy_paths", [])[0] if
best_disease.get("hierarchy_paths") else []` (line 608). -/
def diseaseHierPath (bd : JVal) : JVal :=
  if jTruthy (jvalGet bd "hierarchy_paths") then
    match jvalGet bd "hierarchy_paths" with
    | .arr (p0 :: _) => p0
    | _ => .arr []
  else .arr []

/-- The four-field update of lines 604-609. -/
def diseaseCore (b1 : JObj) (bd : JVal) : JObj :=
  jset (jset (jset (jset b1
    "doid_id" (jvalGet bd "doid_id"))
    "doid_label" (jvalGet bd "doid_label"))
    "match_status" (diseaseStatus bd))
    "hierarchy_path" (diseaseHierPath bd)

/-- The update applied once a (truthy) best disease is chosen (lines
604-616): set doid_id/doid_label/match_status/hierarchy_path, then the
cleaned expanded terms as synonyms when truthy. -/
def diseaseUpdate (b1 : JObj) (bd : JVal) : JObj :=
  if jTruthy (jvalGet bd "expanded_terms") then
    match jvalGet bd "expanded_terms" with
    | .arr ts => jset (diseaseCore b1 bd) "synonyms" (.arr (ts.filter cleanSyn))
    | _ => diseaseCore b1 bd
  else diseaseCore b1 bd

/-- `get_disease_ontology` (unified_enrichment.py lines 563-618). -/
def getDiseaseOntology (d : JObj) : JVal :=
  if hasKey d "diseaseOntology" ∧
      jTruthy ((jget d "diseaseOntology").getD .null) then
    match (jget d "diseaseOntology").getD (.arr []) with
    | .arr lst =>
      if lst.isEmpty then .obj diseaseBase
      else
        let b1 := jset diseaseBase "all_diseases" (.arr lst)
        let best : Option JVal :=
          match (selectBestDisease lst).1 with
          | some b => some b
          | none => lst.head?
        match best with
        | some bd =>
          -- `if best_disease:` (line 603) tests truthiness, not None-ness
          if ¬ jTruthy bd then .obj b1 else .obj (diseaseUpdate b1 bd)
        | none => .obj b1
    | _ => .obj diseaseBase
  else .obj diseaseBase

/-- `get_payload_ontology` (lines 620-640). -/
def getPayloadOntology (d : JObj) : JVal :=
  let base : JObj :=
    [("chembl_id", .null), ("preferred_name", .null), ("max_phase", .null),
     ("molecule_type", .null), ("match_status", .str "unknown")]
  let b1 := if hasKey d "payloadNameChembl" ∧
      jTruthy ((jget d "payloadNameChembl").getD .null) then
      jset (jset base "preferred_name" ((jget d "payloadNameChembl").getD .null))
        "match_status" (.str "chembl_match")
    else base
  let b2 := if hasKey d "payloadOntology" ∧
      jTruthy ((jget d "payloadOntology").getD .null) then
      jset b1 "match_status" (.str "ontology_match")
    else b1
  .obj b2

/-- `get_linker_ontology` (lines 642-662). -/
def getLinkerOntology (d : JObj) : JVal :=
  let base : JObj :=
    [("chembl_id", .null), ("preferred_name", .null), ("max_phase", .null),
     ("molecule_type", .null), ("match_status", .str "unknown")]
  let b1 := if hasKey d "linkerNameChembl" ∧
      jTruthy ((jget d "linkerNameChembl").getD .null) then
      jset (jset base "preferred_name" ((jget d "linkerNameChembl").getD .null))
        "match_status" (.str "chembl_match")
    else base
  let b2 := if hasKey d "linkerOntology" ∧
      jTruthy ((jget d "linkerOntology").getD .null) then
      jset b1 "match_status" (.str "ontology_match")
    else b1
  .obj b2

def domainKeys : List String :=
  ["drug", "antigen", "disease", "payload", "linker",
   "company", "trial_design", "biomarker_strategy"]

/-- The `ontology` dict built by `enrich_single_drug`
(unified_enrichment.py lines 456-468): copy the merged `ontology` dict,
overwrite the five core domains, default the three merge-only domains
to `{}` when absent. -/
def enrichSingleDrugOntology (d : JObj) : JObj :=
  let ont0 : JObj :=
    match jget d "ontology" with
    | some (.obj o) => o
    | _ => []
  let ont1 := jset (jset (jset (jset (jset ont0
    "drug" (getDrugOntology d))
    "antigen" (getAntigenOntology d))
    "disease" (getDiseaseOntology d))
    "payload" (getPayloadOntology d))
    "linker" (getLinkerOntology d)
  let ont2 := if hasKey ont1 "company" then ont1 else jset ont1 "company" (.obj [])
  let ont3 := if hasKey ont2 "trial_design" then ont2
              else jset ont2 "trial_design" (.obj [])
  if hasKey ont3 "biomarker_strategy" then ont3
  else jset ont3 "biomarker_strategy" (.obj [])

/-- `enrich_single_drug` (unified_enrichment.py lines 456-492): the
rebuilt drug with its original fields plus `ontology`. -/
def enrichSingleDrug (d : JObj) : JVal :=
  let ont4 := enrichSingleDrugOntology d
  .obj
    [("extractedAt", (jget d "extractedAt").getD .null),
     ("drugName", (jget d "drugName").getD .null),
     ("drugNameConfidence", (jget d "drugNameConfidence").getD .null),
     ("company", (jget d "company").getD .null),
     ("companyConfidence", (jget d "companyConfidence").getD .null),
     ("cancerIndication", (jget d "cancerIndication").getD .null),
     ("cancerIndicationConfidence", (jget d "cancerIndicationConfidence").getD .null),
     ("targetAntigen", (jget d "targetAntigen").getD .null),
     ("targetAntigenConfidence", (jget d "targetAntigenConfidence").getD .null),
     ("mechanismOfAction", (jget d "mechanismOfAction").getD .null),
     ("mechanismOfActionConfidence", (jget d "mechanismOfActionConfidence").getD .null),
     ("payload", (jget d "payload").getD .null),
     ("linker", (jget d "linker").getD .null),
     ("phase", (jget d "phase").getD .null),
     ("trialDesign", (jget d "trialDesign").getD .null),
     ("trialDesignConfidence", (jget d "trialDesignConfidence").getD .null),
     ("biomarkerStrategy", (jget d "biomarkerStrategy").getD .null),
     ("biomarkerStrategyConfidence", (jget d "biomarkerStrategyConfidence").getD .null),
     ("ontology", .obj ont4)]

/-- The enriched drug list of `enrich_single_entry` (lines 450-452):
drugs that are not dicts would crash the original (`drug.get`), so the
embedding skips them. -/
def enrichEntryDrugs (e : JObj) : List JVal :=
  match jget e "extractedDrugs" with
  | some (.arr ds) => ds.filterMap (fun drug =>
      match drug with
      | .obj d => some (enrichSingleDrug d)
      | _ => none)
  | _ => []

/-- `enrich_single_entry` (lines 438-454). -/
def enrichSingleEntry (entry : JVal) : JVal :=
  let e : JObj := match entry with
    | .obj o => o
    | _ => []
  let drugs : List JVal := enrichEntryDrugs e
  .obj
    [("id", (jget e "id").getD .null),
     ("createdAt", (jget e "createdAt").getD .null),
     ("title", (jget e "title").getD .null),
     ("abstract", (jget e "abstract").getD .null),
     ("url", (jget e "url").getD .null),
     ("extractedDrugs", .arr drugs)]

/-- The per-entry loop of `create_comprehensive_enrichment` (lines
389-393). -/
def createComprehensiveEnrichment (data : List JVal) : List JVal :=
  data.map enrichSingleEntry

/-! ### Accessors for per-drug properties of record trees -/

def entryAt (t : List JVal) (i : Nat) : Option JVal := t.get? i

def drugAt (t : List JVal) (i j : Nat) : Option JVal :=
  match entryAt t i with
  | some (.obj e) =>
    match jget e "extractedDrugs" with
    | some (.arr ds) => ds.get? j
    | _ => none
  | _ => none

def drugFieldAt (t : List JVal) (i j : Nat) (f : String) : Option JVal :=
  match drugAt t i j with
  | some (.obj d) => jget d f
  | _ => none

/-- The ontology-domain entry of one drug value. -/
def ontLookup (v : JVal) (k : String) : Option JVal :=
  match v with
  | .obj d =>
    match jget d "ontology" with
    | some (.obj o) => jget o k
    | _ => none
  | _ => none

def drugOntologyAt (t : List JVal) (i j : Nat) (k : String) : Option JVal :=
  match drugAt t i j with
  | some d => ontLookup d k
  | none => none

/-! ### Support lemmas for the resolver cascade -/

theorem foldl_close_mem {l : List String} {acc : Option String} {k : String}
    {word : String}
    (h : l.foldl (fun best x =>
      match best with
      | none => some x
      | some b =>
        if seqRatio b word < seqRatio x word ∨
           (seqRatio x word = seqRatio b word ∧ charListLt b.toList x.toList)
        then some x else some b) acc = some k) :
    acc = some k ∨ k ∈ l := by
  induction l generalizing acc with
  | nil => exact Or.inl h
  | cons x xs ih =>
    simp only [List.foldl_cons] at h
    rcases ih h with h2 | h2
    · cases acc with
      | none =>
        simp only at h2
        exact Or.inr (by simp [Option.some.injEq] at h2; simp [h2])
      | some b =>
        simp only at h2
        by_cases hc : seqRatio b word < seqRatio x word ∨
            (seqRatio x word = seqRatio b word ∧ charListLt b.toList x.toList)
        · rw [if_pos hc] at h2
          exact Or.inr (by simp [Option.some.injEq] at h2; simp [h2])
        · rw [if_neg hc] at h2
          exact Or.inl h2
    · exact Or.inr (List.mem_cons_of_mem x h2)

theorem getCloseMatches1_mem {word : String} {ps : List String}
    {cutoff : Rat} {k : String}
    (h : getCloseMatches1 word ps cutoff = some k) : k ∈ ps := by
  unfold getCloseMatches1 at h
  rcases foldl_close_mem h with h2 | h2
  · exact absurd h2 (by simp)
  · exact List.mem_of_mem_filter h2

theorem mapFind_isSome_of_mem_keys {k : String}
    {m : List (String × HgncRow)} (h : k ∈ mapKeys m) :
    (mapFind k m).isSome := by
  induction m with
  | nil => simp [mapKeys] at h
  | cons p t ih =>
    by_cases hp : p.1 = k
    · simp [mapFind, hp]
    · simp only [mapKeys, List.map_cons, List.mem_cons] at h
      rcases h with h | h
      · exact absurd h.symm hp
      · simp [mapFind, hp]
        exact ih h

/-- Monotonicity of the map builders: a key resolvable in the
accumulator stays resolvable after folding more rows on top. -/
theorem mapFind_symFold_isSome {rows : List HgncRow}
    {acc : List (String × HgncRow)} {k : String}
    (h : (mapFind k acc).isSome) :
    (mapFind k (rows.foldl
      (fun m row => (normalizeSymbol row.symbol, row) :: m) acc)).isSome := by
  induction rows generalizing acc with
  | nil => exact h
  | cons r rest ih =>
    simp only [List.foldl_cons]
    apply ih
    by_cases hk : normalizeSymbol r.symbol = k
    · simp [mapFind, hk]
    · simp [mapFind, hk, h]

theorem mapFind_symFold_isSome_of_mem (rows : List HgncRow) (row : HgncRow) :
    row ∈ rows → ∀ acc : List (String × HgncRow),
    (mapFind (normalizeSymbol row.symbol) (rows.foldl
      (fun m r => (normalizeSymbol r.symbol, r) :: m) acc)).isSome := by
  induction rows with
  | nil => intro h; simp at h
  | cons r rest ih =>
    intro h acc
    simp only [List.foldl_cons]
    rcases List.mem_cons.mp h with h | h
    · subst h
      exact mapFind_symFold_isSome (by simp [mapFind])
    · exact ih h _

theorem mapFind_buildSymbolMap_isSome {rows : List HgncRow} {row : HgncRow}
    (h : row ∈ rows) :
    (mapFind (normalizeSymbol row.symbol) (buildSymbolMap rows)).isSome :=
  mapFind_symFold_isSome_of_mem rows row h []

theorem jget_hgncFound_status (symbol : String) (row : HgncRow)
    (st : String) :
    jget (hgncFound symbol row st) "status" = some (.str st) := rfl

/-! ### Claim C1 : the match cascade of query_hgnc -/

/-- **C1** (amended): `query_hgnc` executes the cascade in strict order
with short-circuit on first success — a symbol-map hit returns status
`canonical`; else an alias-map hit returns `alias_match`; else a fuzzy
hit over the union of both key sets returns `fuzzy_match`; else the
unknown result, whose identifier fields are all null.  Amendment forced
by the counterexample: the result dict carries no `score` key, so the
claim's "score 0.0" for the unknown result has no counterpart in the
code. -/
theorem c1_match_cascade (symbol : String)
    (symbolMap aliasMap : List (String × HgncRow)) (cutoff : Rat) :
    ((mapFind (normalizeSymbol symbol) symbolMap).isSome →
      jget (queryHgnc symbol symbolMap aliasMap cutoff) "status" =
        some (.str "canonical")) ∧
    (mapFind (normalizeSymbol symbol) symbolMap = none →
      (mapFind (normalizeSymbol symbol) aliasMap).isSome →
      jget (queryHgnc symbol symbolMap aliasMap cutoff) "status" =
        some (.str "alias_match")) ∧
    (mapFind (normalizeSymbol symbol) symbolMap = none →
      mapFind (normalizeSymbol symbol) aliasMap = none →
      (getCloseMatches1 (normalizeSymbol symbol)
        ((mapKeys symbolMap ++ mapKeys aliasMap).dedup) cutoff).isSome →
      jget (queryHgnc symbol symbolMap aliasMap cutoff) "status" =
        some (.str "fuzzy_match")) ∧
    (mapFind (normalizeSymbol symbol) symbolMap = none →
      mapFind (normalizeSymbol symbol) aliasMap = none →
      getCloseMatches1 (normalizeSymbol symbol)
        ((mapKeys symbolMap ++ mapKeys aliasMap).dedup) cutoff = none →
      queryHgnc symbol symbolMap aliasMap cutoff = hgncUnknown symbol) := by
  refine ⟨?_, ?_, ?_, ?_⟩
  · intro h
    obtain ⟨row, hrow⟩ := Option.isSome_iff_exists.mp h
    simp [queryHgnc, hrow, jget_hgncFound_status]
  · intro h1 h2
    obtain ⟨row, hrow⟩ := Option.isSome_iff_exists.mp h2
    simp [queryHgnc, h1, hrow, jget_hgncFound_status]
  · intro h1 h2 h3
    obtain ⟨key, hkey⟩ := Option.isSome_iff_exists.mp h3
    have hmem := getCloseMatches1_mem hkey
    cases hs : mapFind key symbolMap with
    | some row => simp [queryHgnc, h1, h2, hkey, hs, jget_hgncFound_status]
    | none =>
      have hmem2 : key ∈ mapKeys aliasMap := by
        rcases List.mem_append.mp (List.mem_dedup.mp hmem) with hm | hm
        · exact absurd (mapFind_isSome_of_mem_keys hm) (by simp [hs])
        · exact hm
      obtain ⟨row, hrow⟩ :=
        Option.isSome_iff_exists.mp (mapFind_isSome_of_mem_keys hmem2)
      simp [queryHgnc, h1, h2, hkey, hs, hrow, jget_hgncFound_status]
  · intro h1 h2 h3
    simp [queryHgnc, h1, h2, h3]

/-- The ERBB2 row of the C7 scenario, reused across concrete checks. -/
def erbb2Row : HgncRow :=
  { symbol := "ERBB2", hgnc_id := "HGNC:3430", ensembl_gene_id := none,
    alias_symbol := "HER2|NEU",
    locus_type := some "gene with protein product", gene_group := none }

set_option maxRecDepth 4000 in
/-- **C1** counterexample to the claim as stated: on an input that
reaches the unknown branch, the result is the unknown dict — but that
dict has no `score` key at all, so the claimed "score 0.0" is false. -/
theorem c1_counterexample :
    queryHgnc "XKCD9999" (buildSymbolMap [erbb2Row])
      (buildAliasMap [erbb2Row]) (mkRat 85 100) = hgncUnknown "XKCD9999" ∧
    jget (hgncUnknown "XKCD9999") "score" = none ∧
    jget (hgncUnknown "XKCD9999") "status" = some (.str "unknown") ∧
    jget (hgncUnknown "XKCD9999") "hgnc_symbol" = some .null := by decide

/-- Witness for `c1_match_cascade`: the canonical conjunct applied to
the concrete ERBB2 vocabulary. -/
theorem c1_match_cascade_witness :
    jget (queryHgnc "ERBB2" (buildSymbolMap [erbb2Row])
      (buildAliasMap [erbb2Row]) (mkRat 85 100)) "status" =
      some (.str "canonical") :=
  (c1_match_cascade "ERBB2" (buildSymbolMap [erbb2Row])
    (buildAliasMap [erbb2Row]) (mkRat 85 100)).1 (by decide)

/-! ### Claim C2 : the 3-character length floor -/

/-- A vocabulary row used to exhibit fuzzy matching on short inputs. -/
def abcRow : HgncRow :=
  { symbol := "ABC", hgnc_id := "HGNC:1", ensembl_gene_id := none,
    alias_symbol := "", locus_type := none, gene_group := none }

/-- **C2** counterexample: `query_hgnc` has no length floor — the input
`"AB"` normalizes to 2 characters, yet with cutoff 0.5 and a vocabulary
containing `"ABC"` it returns `fuzzy_match`, not `unknown`. -/
theorem c2_counterexample :
    (normalizeSymbol "AB").length < 3 ∧
    jget (queryHgnc "AB" (buildSymbolMap [abcRow]) (buildAliasMap [abcRow])
      (mkRat 1 2)) "status" = some (.str "fuzzy_match") := by decide

theorem bestComponentMatchAux_short (client : ChemblClient) :
    ∀ l : List String, (∀ v ∈ l, (pyStrip v).length < 3) →
    bestComponentMatchAux client l = .ok none := by
  intro l
  induction l with
  | nil => intro _; rfl
  | cons x xs ih =>
    intro h
    have hx := h x (List.mem_cons_self x xs)
    simp only [bestComponentMatchAux, if_pos hx]
    exact ih (fun v hv => h v (List.mem_cons_of_mem x hv))

/-- **C2** (amended): the sub-3-character floor lives only in the
chemical component resolver — `best_component_match` skips every
expanded variant whose stripped length is below 3 and returns no match
when all variants are short (for every client); `query_hgnc` applies no
length floor and can return `fuzzy_match` on inputs shorter than 3
characters (see the counterexample). -/
theorem c2_component_length_floor (client : ChemblClient) (raw : String)
    (h : ∀ v ∈ expandComponentName raw, (pyStrip v).length < 3) :
    bestComponentMatch client raw = .ok none :=
  bestComponentMatchAux_short client _ h

def witClient : ChemblClient :=
  ⟨fun _ => .ok [], fun _ => .ok (.obj [])⟩

/-- Witness for `c2_component_length_floor` at the input `"AB"`. -/
theorem c2_component_length_floor_witness :
    bestComponentMatch witClient "AB" = .ok none :=
  c2_component_length_floor witClient "AB" (by decide)

/-! ### Claim C5 : canonical round-trip -/

/-- **C5** (amended): resolving a raw string that is
character-for-character equal to some row's canonical symbol always
returns status `canonical` — never `fuzzy_match` — for every vocabulary
and every cutoff.  Amendment forced by the counterexample: the result
carries no `score` key, so the claim's "score 1.0" has no counterpart
in the code. -/
theorem c5_canonical_roundtrip (rows : List HgncRow) (row : HgncRow)
    (cutoff : Rat) (h : row ∈ rows) :
    jget (queryHgnc row.symbol (buildSymbolMap rows) (buildAliasMap rows)
      cutoff) "status" = some (.str "canonical") ∧
    jget (queryHgnc row.symbol (buildSymbolMap rows) (buildAliasMap rows)
      cutoff) "status" ≠ some (.str "fuzzy_match") := by
  obtain ⟨r, hr⟩ :=
    Option.isSome_iff_exists.mp (mapFind_buildSymbolMap_isSome h)
  constructor
  · simp [queryHgnc, hr, jget_hgncFound_status]
  · simp [queryHgnc, hr, jget_hgncFound_status]

/-- **C5** counterexample to the claim as stated: resolving the
canonical symbol `"ERBB2"` verbatim gives status `canonical`, but the
result has no `score` key, so it does not carry score 1.0. -/
theorem c5_counterexample :
    jget (queryHgnc "ERBB2" (buildSymbolMap [erbb2Row])
      (buildAliasMap [erbb2Row]) (mkRat 85 100)) "score" = none ∧
    jget (queryHgnc "ERBB2" (buildSymbolMap [erbb2Row])
      (buildAliasMap [erbb2Row]) (mkRat 85 100)) "status" =
      some (.str "canonical") := by decide

/-- Witness for `c5_canonical_roundtrip` on the ERBB2 vocabulary. -/
theorem c5_canonical_roundtrip_witness :
    jget (queryHgnc erbb2Row.symbol (buildSymbolMap [erbb2Row])
      (buildAliasMap [erbb2Row]) (mkRat 85 100)) "status" =
      some (.str "canonical") ∧
    jget (queryHgnc erbb2Row.symbol (buildSymbolMap [erbb2Row])
      (buildAliasMap [erbb2Row]) (mkRat 85 100)) "status" ≠
      some (.str "fuzzy_match") :=
  c5_canonical_roundtrip [erbb2Row] erbb2Row (mkRat 85 100)
    (List.mem_singleton.mpr rfl)

/-! ### Claim C7 : the ERBB2/HER2 alias scenario -/

/-- **C7**: with the vocabulary `[{symbol "ERBB2", alias "HER2|NEU",
id "HGNC:3430"}]`, resolving `"HER2"` yields `alias_match` with stable
id `HGNC:3430`; `"HER-2"` normalizes to `"HER2"` (the hyphen is
stripped) and yields the same alias_match entry. -/
theorem c7_alias_scenario :
    (jget (queryHgnc "HER2" (buildSymbolMap [erbb2Row])
       (buildAliasMap [erbb2Row]) (mkRat 85 100)) "status" =
         some (.str "alias_match") ∧
     jget (queryHgnc "HER2" (buildSymbolMap [erbb2Row])
       (buildAliasMap [erbb2Row]) (mkRat 85 100)) "hgnc_id" =
         some (.str "HGNC:3430")) ∧
    normalizeSymbol "HER-2" = "HER2" ∧
    (jget (queryHgnc "HER-2" (buildSymbolMap [erbb2Row])
       (buildAliasMap [erbb2Row]) (mkRat 85 100)) "status" =
         some (.str "alias_match") ∧
     jget (queryHgnc "HER-2" (buildSymbolMap [erbb2Row])
       (buildAliasMap [erbb2Row]) (mkRat 85 100)) "hgnc_id" =
         some (.str "HGNC:3430") ∧
     jget (queryHgnc "HER-2" (buildSymbolMap [erbb2Row])
       (buildAliasMap [erbb2Row]) (mkRat 85 100)) "hgnc_symbol" =
         some (.str "ERBB2")) := by decide

/-! ### Claim C3 : every domain key is present in ontology -/

theorem hasKey_true_iff (o : JObj) (k : String) :
    hasKey o k = true ↔ (jget o k).isSome := by
  induction o with
  | nil => simp [hasKey, jget]
  | cons p t ih =>
    by_cases hp : p.1 = k
    · simp [hasKey, jget, hp]
    · simp [hasKey, jget, hp, ih]

theorem jget_jset_isSome (o : JObj) (k : String) (v : JVal) (k' : String)
    (h : (jget o k').isSome) : (jget (jset o k v) k').isSome := by
  by_cases hk : k' = k
  · subst hk; simp [jget_jset_self]
  · rw [jget_jset_ne o k k' v hk]; exact h

theorem jget_jset_self_isSome (o : JObj) (k : String) (v : JVal) :
    (jget (jset o k v) k).isSome := by simp [jget_jset_self]

theorem jget_ensure_isSome (o : JObj) (k2 k : String)
    (h : (jget o k).isSome) :
    (jget (if hasKey o k2 then o else jset o k2 (.obj [])) k).isSome := by
  split
  · exact h
  · exact jget_jset_isSome o k2 _ k h

theorem jget_ensure_self_isSome (o : JObj) (k : String) :
    (jget (if hasKey o k then o else jset o k (.obj [])) k).isSome := by
  split
  · next hh => exact (hasKey_true_iff o k).mp hh
  · exact jget_jset_self_isSome o k _

theorem enrichSingleDrugOntology_keys (d : JObj) (k : String)
    (hk : k ∈ domainKeys) :
    (jget (enrichSingleDrugOntology d) k).isSome := by
  simp only [domainKeys, List.mem_cons, List.not_mem_nil, or_false] at hk
  unfold enrichSingleDrugOntology
  rcases hk with rfl | rfl | rfl | rfl | rfl | rfl | rfl | rfl
  · exact jget_ensure_isSome _ _ _ (jget_ensure_isSome _ _ _
      (jget_ensure_isSome _ _ _ (jget_jset_isSome _ _ _ _
      (jget_jset_isSome _ _ _ _ (jget_jset_isSome _ _ _ _
      (jget_jset_isSome _ _ _ _ (jget_jset_self_isSome _ _ _)))))))
  · exact jget_ensure_isSome _ _ _ (jget_ensure_isSome _ _ _
      (jget_ensure_isSome _ _ _ (jget_jset_isSome _ _ _ _
      (jget_jset_isSome _ _ _ _ (jget_jset_isSome _ _ _ _
      (jget_jset_self_isSome _ _ _))))))
  · exact jget_ensure_isSome _ _ _ (jget_ensure_isSome _ _ _
      (jget_ensure_isSome _ _ _ (jget_jset_isSome _ _ _ _
      (jget_jset_isSome _ _ _ _ (jget_jset_self_isSome _ _ _)))))
  · exact jget_ensure_isSome _ _ _ (jget_ensure_isSome _ _ _
      (jget_ensure_isSome _ _ _ (jget_jset_isSome _ _ _ _
      (jget_jset_self_isSome _ _ _))))
  · exact jget_ensure_isSome _ _ _ (jget_ensure_isSome _ _ _
      (jget_ensure_isSome _ _ _ (jget_jset_self_isSome _ _ _)))
  · exact jget_ensure_isSome _ _ _ (jget_ensure_isSome _ _ _
      (jget_ensure_self_isSome _ _))
  · exact jget_ensure_isSome _ _ _ (jget_ensure_self_isSome _ _)
  · exact jget_ensure_self_isSome _ _

theorem ontLookup_enrichSingleDrug (d : JObj) (k : String) :
    ontLookup (enrichSingleDrug d) k = jget (enrichSingleDrugOntology d) k :=
  rfl

theorem drugAt_comprehensive (data : List JVal) (i j : Nat) :
    drugAt (createComprehensiveEnrichment data) i j =
    (match data.get? i with
     | some entry =>
       (enrichEntryDrugs (match entry with | .obj o => o | _ => [])).get? j
     | none => none) := by
  unfold drugAt entryAt createComprehensiveEnrichment
  rw [List.get?_map]
  cases data.get? i with
  | none => rfl
  | some e0 => rfl

theorem enrichEntryDrugs_mem {e : JObj} {d0 : JVal}
    (h : d0 ∈ enrichEntryDrugs e) : ∃ d : JObj, d0 = enrichSingleDrug d := by
  unfold enrichEntryDrugs at h
  rcases he : jget e "extractedDrugs" with _ | v
  · rw [he] at h; simp at h
  · rw [he] at h
    cases v with
    | arr ds =>
      obtain ⟨a, _, ha⟩ := List.mem_filterMap.mp h
      cases a with
      | obj d => exact ⟨d, by simpa using ha.symm⟩
      | null => simp at ha
      | str s => simp at ha
      | num q => simp at ha
      | bool b => simp at ha
      | arr xs => simp at ha
    | obj fs => simp at h
    | null => simp at h
    | str s => simp at h
    | num q => simp at h
    | bool b => simp at h

/-- **C3**: in the final merge output
(`create_comprehensive_enrichment`), every drug item of every entry has
all eight configured domain keys present in its `ontology` mapping —
each key either populated or (for the three merge-only domains) the
empty mapping — no key is ever omitted, whatever the input tree was. -/
theorem c3_every_domain_key_present (data : List JVal) (i j : Nat)
    (k : String) (hk : k ∈ domainKeys) (d0 : JVal)
    (hdrug : drugAt (createComprehensiveEnrichment data) i j = some d0) :
    (drugOntologyAt (createComprehensiveEnrichment data) i j k).isSome := by
  unfold drugOntologyAt
  rw [hdrug]
  rw [drugAt_comprehensive] at hdrug
  cases he : data.get? i with
  | none => rw [he] at hdrug; simp at hdrug
  | some e0 =>
    rw [he] at hdrug
    simp only at hdrug
    have hmem := List.get?_mem hdrug
    obtain ⟨d, rfl⟩ := enrichEntryDrugs_mem hmem
    show (ontLookup (enrichSingleDrug d) k).isSome = true
    rw [ontLookup_enrichSingleDrug]
    exact enrichSingleDrugOntology_keys d k hk

/-- A minimal base entry with one (empty) drug dict, used as witness
input. -/
def witBaseEntry : JVal :=
  .obj [("id", .str "e1"), ("extractedDrugs", .arr [.obj []])]

set_option maxRecDepth 8000 in
/-- Witness for `c3_every_domain_key_present` on a one-entry, one-drug
tree and the `company` key. -/
theorem c3_every_domain_key_present_witness :
    (drugOntologyAt (createComprehensiveEnrichment [witBaseEntry]) 0 0
      "company").isSome :=
  c3_every_domain_key_present [witBaseEntry] 0 0 "company" (by decide)
    (enrichSingleDrug []) (by decide)

/-! ### Claim C8 : network failure handling -/

/-- **C8** (amended): a failure (or timeout) of the initial molecule
`search` call is caught and treated as a miss — `fetch_full_chembl_data`
returns `None`, equivalent to an unknown result, and no exception
escapes.  Amendment forced by the counterexample: only the `search`
call sits in the try/except; an exception raised by the follow-up
`molecule_client.get` detail call is not caught and propagates, so not
every network failure is recovered locally. -/
theorem c8_search_error_is_miss (client : ChemblClient) (name e : String)
    (h : client.search name = .error e) :
    fetchFullChemblData client name = .ok none := by
  unfold fetchFullChemblData
  rw [h]

/-- A client whose search succeeds but whose molecule-details call
raises (e.g. a timeout). -/
def timeoutClient : ChemblClient :=
  ⟨fun _ => .ok [.obj [("molecule_chembl_id", .str "CHEMBL1"),
                       ("pref_name", .str "X")]],
   fun _ => .error "timeout"⟩

/-- **C8** counterexample: when the follow-up details call raises, both
`fetch_full_chembl_data` and `best_component_match` propagate the
exception instead of recording a miss, so the failure is fatal for the
batch. -/
theorem c8_counterexample :
    fetchFullChemblData timeoutClient "monomethyl auristatin E" =
      .error "timeout" ∧
    bestComponentMatch timeoutClient "monomethyl auristatin E" =
      .error "timeout" := by
  constructor <;> rfl

/-- A client whose search always raises. -/
def failingClient : ChemblClient :=
  ⟨fun _ => .error "ConnectionError", fun _ => .ok (.obj [])⟩

/-- Witness for `c8_search_error_is_miss`. -/
theorem c8_search_error_is_miss_witness :
    fetchFullChemblData failingClient "DM1" = .ok none :=
  c8_search_error_is_miss failingClient "DM1" "ConnectionError" rfl

/-! ### Claim C9 : the frame property of enrich_json -/

def entryFieldAt (t : List JVal) (i : Nat) (f : String) : Option JVal :=
  match entryAt t i with
  | some (.obj e) => jget e f
  | _ => none

def drugsCountAt (t : List JVal) (i : Nat) : Option Nat :=
  match entryAt t i with
  | some (.obj e) =>
    match jget e "extractedDrugs" with
    | some (.arr ds) => some ds.length
    | _ => none
  | _ => none

theorem entryAt_map (f : JVal → JVal) (t : List JVal) (i : Nat) :
    entryAt (t.map f) i = (entryAt t i).map f := by
  unfold entryAt
  simp [List.get?_map]

theorem drugAt_enrichJson (data : List JVal) (lookup : JObj) (i j : Nat) :
    drugAt (enrichJson data lookup) i j =
      (drugAt data i j).map (enrichJsonDrug lookup) := by
  unfold drugAt enrichJson
  rw [entryAt_map]
  cases entryAt data i with
  | none => rfl
  | some e0 =>
    cases e0 with
    | obj e =>
      cases hE : jget e "extractedDrugs" with
      | none => simp [enrichJsonEntry, hE]
      | some v =>
        cases v with
        | arr ds =>
          simp [enrichJsonEntry, hE, jget_jset_self, List.get?_map]
        | null => simp [enrichJsonEntry, hE]
        | str s => simp [enrichJsonEntry, hE]
        | num q => simp [enrichJsonEntry, hE]
        | bool b => simp [enrichJsonEntry, hE]
        | obj o => simp [enrichJsonEntry, hE]
    | null => rfl
    | str s => rfl
    | num q => rfl
    | bool b => rfl
    | arr xs => rfl

/-- **C9**: `enrich_json` writes only the `targetOntology` key of the
drug dicts: the entry count, every entry-level field other than the
(in-place updated) `extractedDrugs` list, the drug count of every
entry, and every drug field other than `targetOntology` are exactly as
in the input tree. -/
theorem c9_enrich_json_frame (data : List JVal) (lookup : JObj) :
    (enrichJson data lookup).length = data.length ∧
    (∀ i f, f ≠ "extractedDrugs" →
      entryFieldAt (enrichJson data lookup) i f = entryFieldAt data i f) ∧
    (∀ i, drugsCountAt (enrichJson data lookup) i = drugsCountAt data i) ∧
    (∀ i j f, f ≠ "targetOntology" →
      drugFieldAt (enrichJson data lookup) i j f = drugFieldAt data i j f) := by
  refine ⟨List.length_map data _, ?_, ?_, ?_⟩
  · intro i f hf
    unfold entryFieldAt
    unfold enrichJson
    rw [entryAt_map]
    cases entryAt data i with
    | none => rfl
    | some e0 =>
      cases e0 with
      | obj e =>
        cases hE : jget e "extractedDrugs" with
        | none => simp [enrichJsonEntry, hE]
        | some v =>
          cases v with
          | arr ds =>
            simp [enrichJsonEntry, hE, jget_jset_ne _ _ _ _ hf]
          | null => simp [enrichJsonEntry, hE]
          | str s => simp [enrichJsonEntry, hE]
          | num q => simp [enrichJsonEntry, hE]
          | bool b => simp [enrichJsonEntry, hE]
          | obj o => simp [enrichJsonEntry, hE]
      | null => rfl
      | str s => rfl
      | num q => rfl
      | bool b => rfl
      | arr xs => rfl
  · intro i
    unfold drugsCountAt
    unfold enrichJson
    rw [entryAt_map]
    cases entryAt data i with
    | none => rfl
    | some e0 =>
      cases e0 with
      | obj e =>
        cases hE : jget e "extractedDrugs" with
        | none => simp [enrichJsonEntry, hE]
        | some v =>
          cases v with
          | arr ds =>
            simp [enrichJsonEntry, hE, jget_jset_self]
          | null => simp [enrichJsonEntry, hE]
          | str s => simp [enrichJsonEntry, hE]
          | num q => simp [enrichJsonEntry, hE]
          | bool b => simp [enrichJsonEntry, hE]
          | obj o => simp [enrichJsonEntry, hE]
      | null => rfl
      | str s => rfl
      | num q => rfl
      | bool b => rfl
      | arr xs => rfl
  · intro i j f hf
    unfold drugFieldAt
    rw [drugAt_enrichJson]
    cases drugAt data i j with
    | none => rfl
    | some drug =>
      cases drug with
      | obj d => simp [enrichJsonDrug, jget_jset_ne _ _ _ _ hf]
      | null => rfl
      | str s => rfl
      | num q => rfl
      | bool b => rfl
      | arr xs => rfl

set_option maxRecDepth 8000 in
/-- Witness for `c9_enrich_json_frame`: a one-entry tree keeps its
`drugName` field (and drug count) after antigen enrichment. -/
theorem c9_enrich_json_frame_witness :
    drugFieldAt (enrichJson
      [.obj [("id", .str "e1"),
             ("extractedDrugs", .arr [.obj [("drugName", .str "T-DM1")]])]]
      []) 0 0 "drugName" =
    drugFieldAt
      [.obj [("id", .str "e1"),
             ("extractedDrugs", .arr [.obj [("drugName", .str "T-DM1")]])]]
      0 0 "drugName" :=
  (c9_enrich_json_frame
    [.obj [("id", .str "e1"),
           ("extractedDrugs", .arr [.obj [("drugName", .str "T-DM1")]])]]
    []).2.2.2 0 0 "drugName" (by decide)

/-! ### Claim C10 : falsy drug names never receive merged enrichments -/

theorem alFindJ_mem {α : Type} {k : JVal} {m : List (JVal × α)} {v : α}
    (h : alFindJ k m = some v) : (k, v) ∈ m := by
  induction m with
  | nil => simp [alFindJ] at h
  | cons p t ih =>
    unfold alFindJ at h
    by_cases hp : p.1 = k
    · rw [if_pos hp] at h
      have hpv : p = (k, v) := by
        obtain ⟨p1, p2⟩ := p
        simp only at hp
        simp only [Option.some.injEq] at h
        rw [hp, h]
      rw [← hpv]
      exact List.mem_cons_self p t
    · rw [if_neg hp] at h
      exact List.mem_cons_of_mem p (ih h)

theorem buildSubMap_truthy (f : JObj → JVal) (ds : List JVal) :
    ∀ p ∈ buildSubMap f ds, jTruthy p.1 = true := by
  unfold buildSubMap
  suffices hgen : ∀ (l : List JVal) (acc : List (JVal × JVal)),
      (∀ p ∈ acc, jTruthy p.1 = true) →
      ∀ p ∈ l.foldl (fun sm drug =>
        match drug with
        | .obj d =>
          if jTruthy ((jget d "drugName").getD .null) then
            (((jget d "drugName").getD .null), f d) :: sm
          else sm
        | _ => sm) acc, jTruthy p.1 = true by
    exact hgen ds [] (by simp)
  intro l
  induction l with
  | nil => intro acc hacc; simpa using hacc
  | cons drug rest ih =>
    intro acc hacc
    simp only [List.foldl_cons]
    apply ih
    cases drug with
    | obj d =>
      by_cases hn : jTruthy ((jget d "drugName").getD .null) = true
      · simp only [hn, if_true]
        intro p hp
        rcases List.mem_cons.mp hp with hp | hp
        · rw [hp]; exact hn
        · exact hacc p hp
      · simp only [Bool.not_eq_true] at hn
        simp only [hn, Bool.false_eq_true, if_false]
        exact hacc
    | null => exact hacc
    | str s => exact hacc
    | num q => exact hacc
    | bool b => exact hacc
    | arr xs => exact hacc

theorem buildEntryMap_sub_truthy (f : JObj → JVal) (data : List JVal) :
    ∀ q ∈ buildEntryMap f data, ∀ p ∈ q.2, jTruthy p.1 = true := by
  unfold buildEntryMap
  suffices hgen : ∀ (l : List JVal) (acc : List (JVal × List (JVal × JVal))),
      (∀ q ∈ acc, ∀ p ∈ q.2, jTruthy p.1 = true) →
      ∀ q ∈ l.foldl (fun m entry =>
        match entry with
        | .obj e =>
          if jTruthy ((jget e "id").getD .null) then
            (((jget e "id").getD .null),
             (match jget e "extractedDrugs" with
              | some (.arr ds) => buildSubMap f ds
              | _ => [])) :: m
          else m
        | _ => m) acc, ∀ p ∈ q.2, jTruthy p.1 = true by
    exact hgen data [] (by simp)
  intro l
  induction l with
  | nil => intro acc hacc; simpa using hacc
  | cons entry rest ih =>
    intro acc hacc
    simp only [List.foldl_cons]
    apply ih
    cases entry with
    | obj e =>
      by_cases hid : jTruthy ((jget e "id").getD .null) = true
      · simp only [hid, if_true]
        intro q hq
        rcases List.mem_cons.mp hq with hq | hq
        · rw [hq]
          cases hE : jget e "extractedDrugs" with
          | none => simp
          | some v =>
            cases v with
            | arr ds => simpa using buildSubMap_truthy f ds
            | null => simp
            | str s => simp
            | num q2 => simp
            | bool b => simp
            | obj o => simp
        · exact hacc q hq
      · simp only [Bool.not_eq_true] at hid
        simp only [hid, Bool.false_eq_true, if_false]
        exact hacc
    | null => exact hacc
    | str s => exact hacc
    | num q => exact hacc
    | bool b => exact hacc
    | arr xs => exact hacc

theorem alFindJ_none_of_falsy {sub : List (JVal × JVal)} {name : JVal}
    (hk : ∀ p ∈ sub, jTruthy p.1 = true) (hn : jTruthy name = false) :
    alFindJ name sub = none := by
  induction sub with
  | nil => rfl
  | cons p t ih =>
    unfold alFindJ
    by_cases hp : p.1 = name
    · exfalso
      have := hk p (List.mem_cons_self p t)
      rw [hp, hn] at this
      exact Bool.false_ne_true this
    · rw [if_neg hp]
      exact ih (fun q hq => hk q (List.mem_cons_of_mem p hq))

theorem applyDomainDrug_falsy (domKey : String) (sub : List (JVal × JVal))
    (d : JObj) (hkeys : ∀ p ∈ sub, jTruthy p.1 = true)
    (hn : jTruthy ((jget d "drugName").getD .null) = false) :
    applyDomainDrug domKey sub (.obj d) = .obj d := by
  simp only [applyDomainDrug, alFindJ_none_of_falsy hkeys hn]

theorem applyAntigenDrug_falsy (sub : List (JVal × JVal)) (d : JObj)
    (hkeys : ∀ p ∈ sub, jTruthy p.1 = true)
    (hn : jTruthy ((jget d "drugName").getD .null) = false) :
    applyAntigenDrug sub (.obj d) = .obj d := by
  simp only [applyAntigenDrug, alFindJ_none_of_falsy hkeys hn]

theorem drugAt_inv {t : List JVal} {i j : Nat} {v : JVal}
    (h : drugAt t i j = some v) :
    ∃ e ds, entryAt t i = some (.obj e) ∧
      jget e "extractedDrugs" = some (.arr ds) ∧ ds.get? j = some v := by
  unfold drugAt at h
  cases he : entryAt t i with
  | none => simp [he] at h
  | some e0 =>
    simp only [he] at h
    cases e0 with
    | obj e =>
      cases hE : jget e "extractedDrugs" with
      | none => simp [hE] at h
      | some w =>
        simp only [hE] at h
        cases w with
        | arr ds => exact ⟨e, ds, rfl, hE, h⟩
        | null => simp at h
        | str s => simp at h
        | num q => simp at h
        | bool b => simp at h
        | obj o => simp at h
    | null => simp at h
    | str s => simp at h
    | num q => simp at h
    | bool b => simp at h
    | arr xs => simp at h

theorem drugAt_applyEntryWith (upd : List (JVal × JVal) → JVal → JVal)
    (m : List (JVal × List (JVal × JVal))) (base : List JVal) (i j : Nat) :
    drugAt (base.map (applyEntryWith upd m)) i j =
    (match entryAt base i with
     | some (.obj e) =>
       match jget e "extractedDrugs" with
       | some (.arr ds) =>
         match alFindJ ((jget e "id").getD .null) m with
         | some sub => (ds.get? j).map (upd sub)
         | none => ds.get? j
       | _ => none
     | _ => none) := by
  unfold drugAt
  rw [entryAt_map]
  cases entryAt base i with
  | none => rfl
  | some e0 =>
    cases e0 with
    | obj e =>
      cases hid : alFindJ ((jget e "id").getD .null) m with
      | none =>
        simp only [Option.map_some']
        cases hE : jget e "extractedDrugs" with
        | none => simp [applyEntryWith, hid, hE]
        | some w =>
          cases w with
          | arr ds => simp [applyEntryWith, hid, hE]
          | null => simp [applyEntryWith, hid, hE]
          | str s => simp [applyEntryWith, hid, hE]
          | num q => simp [applyEntryWith, hid, hE]
          | bool b => simp [applyEntryWith, hid, hE]
          | obj o => simp [applyEntryWith, hid, hE]
      | some sub =>
        simp only [Option.map_some']
        cases hE : jget e "extractedDrugs" with
        | none => simp [applyEntryWith, hid, hE]
        | some w =>
          cases w with
          | arr ds =>
            simp [applyEntryWith, hid, hE, jget_jset_self, List.get?_map]
          | null => simp [applyEntryWith, hid, hE]
          | str s => simp [applyEntryWith, hid, hE]
          | num q => simp [applyEntryWith, hid, hE]
          | bool b => simp [applyEntryWith, hid, hE]
          | obj o => simp [applyEntryWith, hid, hE]
    | null => rfl
    | str s => rfl
    | num q => rfl
    | bool b => rfl
    | arr xs => rfl

/-- **C10**: every per-domain merge keys its enrichment lookup table
only by truthy drug names, so a base drug whose `drugName` is absent,
null, or empty (generally: falsy) passes through every ontology-domain
merge (`company`, `trial_design`, `biomarker_strategy`, via the shared
shape) and the antigen merge completely unchanged, for every domain key,
every field list, and every enrichment tree. -/
theorem c10_falsy_name_untouched (base data : List JVal) (i j : Nat)
    (d : JObj) (domKey : String) (fields : List String)
    (hd : drugAt base i j = some (.obj d))
    (hn : jTruthy ((jget d "drugName").getD .null) = false) :
    drugAt (mergeDomainEnrichments domKey fields base data) i j =
      some (.obj d) ∧
    drugAt (mergeAntigenEnrichments base data) i j = some (.obj d) := by
  obtain ⟨e, ds, he, hE, hj⟩ := drugAt_inv hd
  constructor
  · unfold mergeDomainEnrichments
    show drugAt (base.map (applyEntryWith (applyDomainDrug domKey)
      (buildDomainMap fields data))) i j = some (.obj d)
    rw [drugAt_applyEntryWith]
    simp only [he, hE]
    cases hid : alFindJ ((jget e "id").getD .null)
        (buildDomainMap fields data) with
    | none => simpa using hj
    | some sub =>
      have hsub := buildEntryMap_sub_truthy (extractProj fields) data
        (((jget e "id").getD .null), sub) (alFindJ_mem hid)
      simp only [hj, Option.map_some']
      rw [applyDomainDrug_falsy domKey sub d hsub hn]
  · unfold mergeAntigenEnrichments
    show drugAt (base.map (applyEntryWith applyAntigenDrug
      (buildAntigenMap data))) i j = some (.obj d)
    rw [drugAt_applyEntryWith]
    simp only [he, hE]
    cases hid : alFindJ ((jget e "id").getD .null) (buildAntigenMap data) with
    | none => simpa using hj
    | some sub =>
      have hsub := buildEntryMap_sub_truthy extractAntigenPair data
        (((jget e "id").getD .null), sub) (alFindJ_mem hid)
      simp only [hj, Option.map_some']
      rw [applyAntigenDrug_falsy sub d hsub hn]

/-- A base tree whose only drug has a null `drugName`, plus an
enrichment tree for the same entry id carrying a company enrichment. -/
def noNameBase : List JVal :=
  [.obj [("id", .str "e1"),
         ("extractedDrugs", .arr [.obj [("drugName", .null),
                                        ("company", .str "X")]])]]

def companyData : List JVal :=
  [.obj [("id", .str "e1"),
         ("extractedDrugs", .arr [.obj [("drugName", .str "D1"),
                                        ("companyCleaned", .str "X Inc")]])]]

/-- Witness for `c10_falsy_name_untouched` on concrete trees. -/
theorem c10_falsy_name_untouched_witness :
    drugAt (mergeDomainEnrichments "company" companyFields noNameBase
      companyData) 0 0 =
      some (.obj [("drugName", .null), ("company", .str "X")]) ∧
    drugAt (mergeAntigenEnrichments noNameBase companyData) 0 0 =
      some (.obj [("drugName", .null), ("company", .str "X")]) :=
  c10_falsy_name_untouched noNameBase companyData 0 0
    [("drugName", .null), ("company", .str "X")] "company" companyFields
    (by decide) (by decide)

/-! ### Claim C6 : the disease primary-selection rule -/

theorem diseaseRawStatus_exact_iff (b : JVal) :
    diseaseRawStatus b = some (.str "exact_match") ↔
    diseaseStatus b = .str "exact_match" := by
  cases b with
  | obj d =>
    unfold diseaseRawStatus diseaseStatus
    cases hs : jget d "match_status" with
    | none => simp [hs]
    | some v => simp [hs]
  | null => simp [diseaseRawStatus, diseaseStatus]
  | str s => simp [diseaseRawStatus, diseaseStatus]
  | num q => simp [diseaseRawStatus, diseaseStatus]
  | bool b2 => simp [diseaseRawStatus, diseaseStatus]
  | arr xs => simp [diseaseRawStatus, diseaseStatus]

/-- Once the loop holds an exact_match, nothing ever replaces it. -/
theorem selectFold_exact_absorb (lst : List JVal) (b : JVal)
    (hb : diseaseStatus b = .str "exact_match") :
    ∀ s : Rat, (lst.foldl selectStep (some b, s)).1 = some b := by
  induction lst with
  | nil => intro s; rfl
  | cons d rest ih =>
    intro s
    simp only [List.foldl_cons]
    have hstep : selectStep (some b, s) d = (some b, s) := by
      unfold selectStep
      have hraw : diseaseRawStatus b = some (.str "exact_match") :=
        (diseaseRawStatus_exact_iff b).mpr hb
      simp [hraw]
    rw [hstep]
    exact ih s

/-- Once the loop holds a non-exact best, only the first exact_match in
the remainder can replace it; no score comparison ever does. -/
theorem selectFold_nonexact (lst : List JVal) (b : JVal)
    (hb : diseaseStatus b ≠ .str "exact_match") :
    ∀ s : Rat, (lst.foldl selectStep (some b, s)).1 =
      match lst.find? (fun v => diseaseStatus v == .str "exact_match") with
      | some v => some v
      | none => some b := by
  induction lst with
  | nil => intro s; rfl
  | cons d rest ih =>
    intro s
    simp only [List.foldl_cons]
    by_cases hd : diseaseStatus d = .str "exact_match"
    · have hstep : selectStep (some b, s) d = (some d, diseaseScore d) := by
        unfold selectStep
        have hraw : ¬ diseaseRawStatus b = some (.str "exact_match") :=
          fun hc => hb ((diseaseRawStatus_exact_iff b).mp hc)
        simp [hd, hraw]
      rw [hstep, List.find?_cons_of_pos _ (by simp [hd])]
      exact selectFold_exact_absorb rest d hd _
    · have hstep : selectStep (some b, s) d = (some b, s) := by
        unfold selectStep
        simp [hd]
      rw [hstep, List.find?_cons_of_neg _ (by simp [hd])]
      exact ih s

/-- The loop started from `(None, -1)` on a list of nonnegative-score
diseases selects the first exact_match, else the first element. -/
theorem selectBestDisease_spec (lst : List JVal)
    (h : ∀ v ∈ lst, 0 ≤ diseaseScore v) :
    (selectBestDisease lst).1 =
      match lst.find? (fun v => diseaseStatus v == .str "exact_match") with
      | some v => some v
      | none => lst.head? := by
  cases lst with
  | nil => rfl
  | cons d rest =>
    unfold selectBestDisease
    simp only [List.foldl_cons]
    by_cases hd : diseaseStatus d = .str "exact_match"
    · have hstep : selectStep (none, -1) d = (some d, diseaseScore d) := by
        unfold selectStep
        simp [hd]
      rw [hstep, List.find?_cons_of_pos _ (by simp [hd])]
      exact selectFold_exact_absorb rest d hd _
    · have hscore : (0 : Rat) ≤ diseaseScore d :=
        h d (List.mem_cons_self d rest)
      have hlt : (-1 : Rat) < diseaseScore d :=
        lt_of_lt_of_le (by norm_num) hscore
      have hstep : selectStep (none, -1) d = (some d, diseaseScore d) := by
        unfold selectStep
        simp [hd, hlt]
      rw [hstep, List.find?_cons_of_neg _ (by simp [hd])]
      rw [selectFold_nonexact rest d hd]
      rfl

theorem diseaseCore_doid_id (b1 : JObj) (bd : JVal) :
    jget (diseaseCore b1 bd) "doid_id" = some (jvalGet bd "doid_id") := by
  unfold diseaseCore
  rw [jget_jset_ne _ _ _ _ (by decide), jget_jset_ne _ _ _ _ (by decide),
    jget_jset_ne _ _ _ _ (by decide), jget_jset_self]

theorem diseaseCore_doid_label (b1 : JObj) (bd : JVal) :
    jget (diseaseCore b1 bd) "doid_label" =
      some (jvalGet bd "doid_label") := by
  unfold diseaseCore
  rw [jget_jset_ne _ _ _ _ (by decide), jget_jset_ne _ _ _ _ (by decide),
    jget_jset_self]

theorem diseaseCore_match_status (b1 : JObj) (bd : JVal) :
    jget (diseaseCore b1 bd) "match_status" =
      some (diseaseStatus bd) := by
  unfold diseaseCore
  rw [jget_jset_ne _ _ _ _ (by decide), jget_jset_self]

theorem diseaseCore_all_diseases (b1 : JObj) (bd : JVal) :
    jget (diseaseCore b1 bd) "all_diseases" = jget b1 "all_diseases" := by
  unfold diseaseCore
  rw [jget_jset_ne _ _ _ _ (by decide), jget_jset_ne _ _ _ _ (by decide),
    jget_jset_ne _ _ _ _ (by decide), jget_jset_ne _ _ _ _ (by decide)]

theorem diseaseUpdate_field_ne_syn (b1 : JObj) (bd : JVal) (k : String)
    (hk : k ≠ "synonyms") :
    jget (diseaseUpdate b1 bd) k = jget (diseaseCore b1 bd) k := by
  unfold diseaseUpdate
  split
  · split
    · rw [jget_jset_ne _ _ _ _ hk]
    · rfl
  · rfl

theorem diseaseUpdate_doid_id (b1 : JObj) (bd : JVal) :
    jget (diseaseUpdate b1 bd) "doid_id" = some (jvalGet bd "doid_id") := by
  rw [diseaseUpdate_field_ne_syn _ _ _ (by decide), diseaseCore_doid_id]

theorem diseaseUpdate_doid_label (b1 : JObj) (bd : JVal) :
    jget (diseaseUpdate b1 bd) "doid_label" =
      some (jvalGet bd "doid_label") := by
  rw [diseaseUpdate_field_ne_syn _ _ _ (by decide), diseaseCore_doid_label]

theorem diseaseUpdate_match_status (b1 : JObj) (bd : JVal) :
    jget (diseaseUpdate b1 bd) "match_status" =
      some (diseaseStatus bd) := by
  rw [diseaseUpdate_field_ne_syn _ _ _ (by decide), diseaseCore_match_status]

theorem diseaseUpdate_all_diseases (b1 : JObj) (bd : JVal) :
    jget (diseaseUpdate b1 bd) "all_diseases" =
      jget b1 "all_diseases" := by
  rw [diseaseUpdate_field_ne_syn _ _ _ (by decide),
    diseaseCore_all_diseases]

theorem getDiseaseOntology_eq (d : JObj) (lst : List JVal) (best : JVal)
    (hd : jget d "diseaseOntology" = some (.arr lst)) (hne : lst ≠ [])
    (hb : (selectBestDisease lst).1 = some best)
    (hbt : jTruthy best = true) :
    getDiseaseOntology d =
      .obj (diseaseUpdate (jset diseaseBase "all_diseases" (.arr lst))
        best) := by
  have h1 : hasKey d "diseaseOntology" = true := by
    rw [hasKey_true_iff, hd]; rfl
  have hemp : lst.isEmpty = false := by
    cases lst with
    | nil => exact absurd rfl hne
    | cons a t => rfl
  have h2 : jTruthy (JVal.arr lst) = true := by
    simp [jTruthy, hemp]
  unfold getDiseaseOntology
  rw [hd]
  simp only [Option.getD_some, h1, h2, and_self, if_true, hemp,
    Bool.false_eq_true, if_false, hb, hbt, eq_self_iff_true, not_true]

/-- **C6** (amended): in the disease adapter, all resolved indications
are kept in `all_diseases`, and an `exact_match` status always beats
any numeric score; but the promoted primary is the FIRST exact_match in
list order, and when no exact_match exists the FIRST indication is
promoted — not the highest-scoring one (the loop's `best_disease is
None` guard prevents any later non-exact candidate from replacing the
current best; see the counterexample).  Scores are assumed nonnegative
and entries truthy, as the disease enricher produces them. -/
theorem c6_disease_primary (d : JObj) (lst : List JVal) (best : JVal)
    (hd : jget d "diseaseOntology" = some (.arr lst)) (hne : lst ≠ [])
    (hscores : ∀ v ∈ lst, 0 ≤ diseaseScore v)
    (htruthy : ∀ v ∈ lst, jTruthy v = true)
    (hbest : (match lst.find?
        (fun v => diseaseStatus v == .str "exact_match") with
      | some v => some v
      | none => lst.head?) = some best) :
    jvalGet (getDiseaseOntology d) "all_diseases" = .arr lst ∧
    jvalGet (getDiseaseOntology d) "doid_id" = jvalGet best "doid_id" ∧
    jvalGet (getDiseaseOntology d) "doid_label" =
      jvalGet best "doid_label" ∧
    jvalGet (getDiseaseOntology d) "match_status" = diseaseStatus best := by
  have hb : (selectBestDisease lst).1 = some best := by
    rw [selectBestDisease_spec lst hscores]; exact hbest
  have hmem : best ∈ lst := by
    cases hfind : lst.find?
        (fun v => diseaseStatus v == .str "exact_match") with
    | some v =>
      rw [hfind] at hbest
      simp only [Option.some.injEq] at hbest
      rw [← hbest]
      exact List.mem_of_find?_eq_some hfind
    | none =>
      rw [hfind] at hbest
      cases lst with
      | nil => exact absurd rfl hne
      | cons a t =>
        simp only [List.head?, Option.some.injEq] at hbest
        rw [← hbest]
        exact List.mem_cons_self a t
  have hbt : jTruthy best = true := htruthy best hmem
  rw [getDiseaseOntology_eq d lst best hd hne hb hbt]
  refine ⟨?_, ?_, ?_, ?_⟩
  · show (jget (diseaseUpdate _ best) "all_diseases").getD .null = .arr lst
    rw [diseaseUpdate_all_diseases, jget_jset_self]
    rfl
  · show (jget (diseaseUpdate _ best) "doid_id").getD .null =
      jvalGet best "doid_id"
    rw [diseaseUpdate_doid_id]
    rfl
  · show (jget (diseaseUpdate _ best) "doid_label").getD .null =
      jvalGet best "doid_label"
    rw [diseaseUpdate_doid_label]
    rfl
  · show (jget (diseaseUpdate _ best) "match_status").getD .null =
      diseaseStatus best
    rw [diseaseUpdate_match_status]
    rfl

def fuzzyDisease (idStr : String) (sc : Rat) : JVal :=
  .obj [("input", .str "x"), ("doid_id", .str idStr),
        ("doid_label", .str idStr), ("match_score", .num sc),
        ("match_status", .str "fuzzy_match"),
        ("hierarchy_paths", .arr []), ("expanded_terms", .arr [])]

/-- **C6** counterexample: a drug listing two fuzzy-matched indications
with scores 0.7 then 0.9 gets the FIRST one (score 0.7) promoted to the
primary slot, not the highest-confidence one. -/
theorem c6_counterexample :
    diseaseScore (fuzzyDisease "DOID:0001" (mkRat 7 10)) <
      diseaseScore (fuzzyDisease "DOID:0002" (mkRat 9 10)) ∧
    jvalGet (getDiseaseOntology
      [("diseaseOntology",
        .arr [fuzzyDisease "DOID:0001" (mkRat 7 10),
              fuzzyDisease "DOID:0002" (mkRat 9 10)])]) "doid_id" =
      .str "DOID:0001" := by decide

def exactDisease (idStr : String) : JVal :=
  .obj [("input", .str "x"), ("doid_id", .str idStr),
        ("doid_label", .str idStr), ("match_score", .num 1),
        ("match_status", .str "exact_match"),
        ("hierarchy_paths", .arr []), ("expanded_terms", .arr [])]

set_option maxRecDepth 4000 in
/-- Witness for `c6_disease_primary`: an exact_match listed second
still wins the primary slot over a fuzzy match listed first. -/
theorem c6_disease_primary_witness :
    jvalGet (getDiseaseOntology
      [("diseaseOntology",
        .arr [fuzzyDisease "DOID:0001" (mkRat 7 10),
              exactDisease "DOID:0003"])]) "doid_id" =
      jvalGet (exactDisease "DOID:0003") "doid_id" :=
  (c6_disease_primary
    [("diseaseOntology",
      .arr [fuzzyDisease "DOID:0001" (mkRat 7 10),
            exactDisease "DOID:0003"])]
    [fuzzyDisease "DOID:0001" (mkRat 7 10), exactDisease "DOID:0003"]
    (exactDisease "DOID:0003") (by decide) (by decide) (by decide)
    (by decide) (by decide)).2.1

/-! ### Claim C4 : commutativity and idempotence of the domain merges -/

/-- Field access on a drug value (none when the drug is not a dict). -/
def fieldOf (v : JVal) (f : String) : Option JVal :=
  match v with
  | .obj d => jget d f
  | _ => none

theorem jget_jset_jset_comm (o : JObj) (k1 k2 : String) (a b : JVal)
    (h : k1 ≠ k2) (kk : String) :
    jget (jset (jset o k1 a) k2 b) kk =
      jget (jset (jset o k2 b) k1 a) kk := by
  by_cases hk1 : kk = k1
  · subst hk1
    rw [jget_jset_ne _ _ _ _ h, jget_jset_self, jget_jset_self]
  · by_cases hk2 : kk = k2
    · subst hk2
      rw [jget_jset_self, jget_jset_ne _ _ _ _ (fun hc => h hc.symm),
        jget_jset_self]
    · rw [jget_jset_ne _ _ _ _ hk2, jget_jset_ne _ _ _ _ hk1,
        jget_jset_ne _ _ _ _ hk1, jget_jset_ne _ _ _ _ hk2]

theorem applyDomainDrug_notfound (k : String) (sub : List (JVal × JVal))
    (d : JObj)
    (h : alFindJ ((jget d "drugName").getD .null) sub = none) :
    applyDomainDrug k sub (.obj d) = .obj d := by
  simp only [applyDomainDrug, h]

/-- Canonical form of a successful per-drug domain update, by the shape
of the incoming `ontology` value. -/
theorem applyDomainDrug_found (k : String) (sub : List (JVal × JVal))
    (d : JObj) (enr : JVal)
    (h : alFindJ ((jget d "drugName").getD .null) sub = some enr) :
    applyDomainDrug k sub (.obj d) =
      match jget d "ontology" with
      | some (.obj o) => .obj (jset d "ontology" (.obj (jset o k enr)))
      | none => .obj (jset d "ontology" (.obj (jset [] k enr)))
      | some _ => .obj d := by
  simp only [applyDomainDrug, h]
  cases hont : jget d "ontology" with
  | none =>
    simp only [hont, Option.isSome_none, Bool.false_eq_true, if_false,
      jget_jset_self, jset_jset_same]
  | some v =>
    cases v with
    | obj o => simp only [hont, Option.isSome_some, if_true]
    | null => simp only [hont, Option.isSome_some, if_true]
    | str s => simp only [hont, Option.isSome_some, if_true]
    | num q => simp only [hont, Option.isSome_some, if_true]
    | bool b => simp only [hont, Option.isSome_some, if_true]
    | arr xs => simp only [hont, Option.isSome_some, if_true]

/-- A per-drug domain update never touches fields other than
`ontology`. -/
theorem fieldOf_applyDomainDrug (k : String) (sub : List (JVal × JVal))
    (drug : JVal) (f : String) (hf : f ≠ "ontology") :
    fieldOf (applyDomainDrug k sub drug) f = fieldOf drug f := by
  cases drug with
  | obj d =>
    cases h : alFindJ ((jget d "drugName").getD .null) sub with
    | none => rw [applyDomainDrug_notfound k sub d h]
    | some enr =>
      rw [applyDomainDrug_found k sub d enr h]
      cases hont : jget d "ontology" with
      | none => simp only [fieldOf, jget_jset_ne _ _ _ _ hf]
      | some v =>
        cases v with
        | obj o => simp only [fieldOf, jget_jset_ne _ _ _ _ hf]
        | null => rfl
        | str s => rfl
        | num q => rfl
        | bool b => rfl
        | arr xs => rfl
  | null => rfl
  | str s => rfl
  | num q => rfl
  | bool b => rfl
  | arr xs => rfl

/-- A per-drug domain update keeps dicts dicts. -/
theorem applyDomainDrug_obj (k : String) (sub : List (JVal × JVal))
    (d : JObj) : ∃ d2 : JObj, applyDomainDrug k sub (.obj d) = .obj d2 := by
  cases h : alFindJ ((jget d "drugName").getD .null) sub with
  | none => exact ⟨d, applyDomainDrug_notfound k sub d h⟩
  | some enr =>
    rw [applyDomainDrug_found k sub d enr h]
    cases hont : jget d "ontology" with
    | none => exact ⟨_, rfl⟩
    | some v =>
      cases v with
      | obj o => exact ⟨_, rfl⟩
      | null => exact ⟨d, rfl⟩
      | str s => exact ⟨d, rfl⟩
      | num q => exact ⟨d, rfl⟩
      | bool b => exact ⟨d, rfl⟩
      | arr xs => exact ⟨d, rfl⟩

theorem applyDomainDrug_set (k2 : String) (sub2 : List (JVal × JVal))
    (d A : JObj) (e2 : JVal)
    (h2 : alFindJ ((jget d "drugName").getD .null) sub2 = some e2) :
    applyDomainDrug k2 sub2 (.obj (jset d "ontology" (.obj A))) =
      .obj (jset d "ontology" (.obj (jset A k2 e2))) := by
  have hn : (jget (jset d "ontology" (.obj A)) "drugName").getD .null =
      (jget d "drugName").getD .null := by
    rw [jget_jset_ne _ _ _ _ (by decide)]
  rw [applyDomainDrug_found k2 sub2 _ e2 (by rw [hn]; exact h2)]
  simp only [jget_jset_self, jset_jset_same]

theorem applyDomainDrug_set_notfound (k2 : String)
    (sub2 : List (JVal × JVal)) (d A : JObj)
    (h2 : alFindJ ((jget d "drugName").getD .null) sub2 = none) :
    applyDomainDrug k2 sub2 (.obj (jset d "ontology" (.obj A))) =
      .obj (jset d "ontology" (.obj A)) := by
  have hn : (jget (jset d "ontology" (.obj A)) "drugName").getD .null =
      (jget d "drugName").getD .null := by
    rw [jget_jset_ne _ _ _ _ (by decide)]
  exact applyDomainDrug_notfound k2 sub2 _ (by rw [hn]; exact h2)

theorem ontLookup_set (d A : JObj) (kk : String) :
    ontLookup (.obj (jset d "ontology" (.obj A))) kk = jget A kk := by
  simp only [ontLookup, jget_jset_self]

theorem fieldOf_set (d : JObj) (X : JVal) (f : String)
    (hf : f ≠ "ontology") :
    fieldOf (.obj (jset d "ontology" X)) f = jget d f := by
  simp only [fieldOf, jget_jset_ne _ _ _ _ hf]

/-- Two different domain updates on the same drug commute on every
field other than `ontology` and on every entry of `ontology`. -/
theorem applyDomainDrug_comm (k1 k2 : String)
    (sub1 sub2 : List (JVal × JVal)) (hk : k1 ≠ k2) (drug : JVal) :
    (∀ f, f ≠ "ontology" →
      fieldOf (applyDomainDrug k2 sub2 (applyDomainDrug k1 sub1 drug)) f =
        fieldOf (applyDomainDrug k1 sub1 (applyDomainDrug k2 sub2 drug)) f) ∧
    (∀ kk,
      ontLookup (applyDomainDrug k2 sub2 (applyDomainDrug k1 sub1 drug)) kk =
        ontLookup (applyDomainDrug k1 sub1 (applyDomainDrug k2 sub2 drug)) kk)
    := by
  cases drug with
  | obj d =>
    cases h1 : alFindJ ((jget d "drugName").getD .null) sub1 with
    | none =>
      cases h2 : alFindJ ((jget d "drugName").getD .null) sub2 with
      | none =>
        rw [applyDomainDrug_notfound k1 sub1 d h1,
          applyDomainDrug_notfound k2 sub2 d h2,
          applyDomainDrug_notfound k1 sub1 d h1]
        exact ⟨fun _ _ => rfl, fun _ => rfl⟩
      | some e2 =>
        -- only the k2 update fires; both orders produce the same value
        rw [applyDomainDrug_notfound k1 sub1 d h1]
        obtain ⟨d2, hd2⟩ := applyDomainDrug_obj k2 sub2 d
        rw [hd2]
        have hn : (jget d2 "drugName").getD .null =
            (jget d "drugName").getD .null := by
          have := fieldOf_applyDomainDrug k2 sub2 (.obj d) "drugName"
            (by decide)
          rw [hd2] at this
          simp only [fieldOf] at this
          rw [this]
        rw [applyDomainDrug_notfound k1 sub1 d2 (by rw [hn]; exact h1)]
        exact ⟨fun _ _ => rfl, fun _ => rfl⟩
    | some e1 =>
      cases h2 : alFindJ ((jget d "drugName").getD .null) sub2 with
      | none =>
        rw [applyDomainDrug_notfound k2 sub2 d h2]
        obtain ⟨d1, hd1⟩ := applyDomainDrug_obj k1 sub1 d
        rw [hd1]
        have hn : (jget d1 "drugName").getD .null =
            (jget d "drugName").getD .null := by
          have := fieldOf_applyDomainDrug k1 sub1 (.obj d) "drugName"
            (by decide)
          rw [hd1] at this
          simp only [fieldOf] at this
          rw [this]
        rw [applyDomainDrug_notfound k2 sub2 d1 (by rw [hn]; exact h2)]
        exact ⟨fun _ _ => rfl, fun _ => rfl⟩
      | some e2 =>
        rw [applyDomainDrug_found k1 sub1 d e1 h1,
          applyDomainDrug_found k2 sub2 d e2 h2]
        cases hont : jget d "ontology" with
        | none =>
          simp only
          rw [applyDomainDrug_set k2 sub2 d (jset [] k1 e1) e2 h2,
            applyDomainDrug_set k1 sub1 d (jset [] k2 e2) e1 h1]
          constructor
          · intro f hf
            rw [fieldOf_set d _ f hf, fieldOf_set d _ f hf]
          · intro kk
            rw [ontLookup_set, ontLookup_set,
              jget_jset_jset_comm [] k1 k2 e1 e2 hk kk]
        | some v =>
          cases v with
          | obj o =>
            simp only
            rw [applyDomainDrug_set k2 sub2 d (jset o k1 e1) e2 h2,
              applyDomainDrug_set k1 sub1 d (jset o k2 e2) e1 h1]
            constructor
            · intro f hf
              rw [fieldOf_set d _ f hf, fieldOf_set d _ f hf]
            · intro kk
              rw [ontLookup_set, ontLookup_set,
                jget_jset_jset_comm o k1 k2 e1 e2 hk kk]
          | null =>
            simp only
            rw [applyDomainDrug_found k2 sub2 d e2 h2,
              applyDomainDrug_found k1 sub1 d e1 h1]
            simp only [hont]
            exact ⟨fun _ _ => trivial, fun _ => trivial⟩
          | str s =>
            simp only
            rw [applyDomainDrug_found k2 sub2 d e2 h2,
              applyDomainDrug_found k1 sub1 d e1 h1]
            simp only [hont]
            exact ⟨fun _ _ => trivial, fun _ => trivial⟩
          | num q =>
            simp only
            rw [applyDomainDrug_found k2 sub2 d e2 h2,
              applyDomainDrug_found k1 sub1 d e1 h1]
            simp only [hont]
            exact ⟨fun _ _ => trivial, fun _ => trivial⟩
          | bool b =>
            simp only
            rw [applyDomainDrug_found k2 sub2 d e2 h2,
              applyDomainDrug_found k1 sub1 d e1 h1]
            simp only [hont]
            exact ⟨fun _ _ => trivial, fun _ => trivial⟩
          | arr xs =>
            simp only
            rw [applyDomainDrug_found k2 sub2 d e2 h2,
              applyDomainDrug_found k1 sub1 d e1 h1]
            simp only [hont]
            exact ⟨fun _ _ => trivial, fun _ => trivial⟩
  | null => exact ⟨fun _ _ => rfl, fun _ => rfl⟩
  | str s => exact ⟨fun _ _ => rfl, fun _ => rfl⟩
  | num q => exact ⟨fun _ _ => rfl, fun _ => rfl⟩
  | bool b => exact ⟨fun _ _ => rfl, fun _ => rfl⟩
  | arr xs => exact ⟨fun _ _ => rfl, fun _ => rfl⟩

/-- Applying the same domain update twice equals applying it once. -/
theorem applyDomainDrug_idem (k : String) (sub : List (JVal × JVal))
    (drug : JVal) :
    applyDomainDrug k sub (applyDomainDrug k sub drug) =
      applyDomainDrug k sub drug := by
  cases drug with
  | obj d =>
    cases h : alFindJ ((jget d "drugName").getD .null) sub with
    | none =>
      rw [applyDomainDrug_notfound k sub d h,
        applyDomainDrug_notfound k sub d h]
    | some e =>
      rw [applyDomainDrug_found k sub d e h]
      cases hont : jget d "ontology" with
      | none =>
        simp only
        rw [applyDomainDrug_set k sub d (jset [] k e) e h, jset_jset_same]
      | some v =>
        cases v with
        | obj o =>
          simp only
          rw [applyDomainDrug_set k sub d (jset o k e) e h, jset_jset_same]
        | null =>
          simp only
          rw [applyDomainDrug_found k sub d e h]
          simp only [hont]
        | str s =>
          simp only
          rw [applyDomainDrug_found k sub d e h]
          simp only [hont]
        | num q =>
          simp only
          rw [applyDomainDrug_found k sub d e h]
          simp only [hont]
        | bool b =>
          simp only
          rw [applyDomainDrug_found k sub d e h]
          simp only [hont]
        | arr xs =>
          simp only
          rw [applyDomainDrug_found k sub d e h]
          simp only [hont]
  | null => rfl
  | str s => rfl
  | num q => rfl
  | bool b => rfl
  | arr xs => rfl

/-- The drug list position of one entry value. -/
def entryDrugAt (entry : JVal) (j : Nat) : Option JVal :=
  match entry with
  | .obj e =>
    match jget e "extractedDrugs" with
    | some (.arr ds) => ds.get? j
    | _ => none
  | _ => none

def drugFieldOpt (o : Option JVal) (f : String) : Option JVal :=
  match o with
  | some v => fieldOf v f
  | none => none

def drugOntOpt (o : Option JVal) (kk : String) : Option JVal :=
  match o with
  | some v => ontLookup v kk
  | none => none

theorem drugAt_eq_entryDrugAt (t : List JVal) (i j : Nat) :
    drugAt t i j =
      match entryAt t i with
      | some entry => entryDrugAt entry j
      | none => none := by
  unfold drugAt entryDrugAt
  cases entryAt t i with
  | none => rfl
  | some e0 => cases e0 <;> rfl

theorem drugOntologyAt_eq (t : List JVal) (i j : Nat) (k : String) :
    drugOntologyAt t i j k = drugOntOpt (drugAt t i j) k := by
  unfold drugOntologyAt drugOntOpt
  cases drugAt t i j <;> rfl

theorem drugFieldAt_eq (t : List JVal) (i j : Nat) (f : String) :
    drugFieldAt t i j f = drugFieldOpt (drugAt t i j) f := by
  unfold drugFieldAt drugFieldOpt fieldOf
  cases drugAt t i j with
  | none => rfl
  | some v => cases v <;> rfl

theorem applyEntryWith_notfound (upd : List (JVal × JVal) → JVal → JVal)
    (m : List (JVal × List (JVal × JVal))) (e : JObj)
    (h : alFindJ ((jget e "id").getD .null) m = none) :
    applyEntryWith upd m (.obj e) = .obj e := by
  simp only [applyEntryWith, h]

theorem applyEntryWith_found_arr (upd : List (JVal × JVal) → JVal → JVal)
    (m : List (JVal × List (JVal × JVal))) (e : JObj)
    (sub : List (JVal × JVal)) (ds : List JVal)
    (h : alFindJ ((jget e "id").getD .null) m = some sub)
    (hE : jget e "extractedDrugs" = some (.arr ds)) :
    applyEntryWith upd m (.obj e) =
      .obj (jset e "extractedDrugs" (.arr (ds.map (upd sub)))) := by
  simp only [applyEntryWith, h, hE]

theorem entry_id_of_jset (e : JObj) (X : JVal) :
    (jget (jset e "extractedDrugs" X) "id").getD .null =
      (jget e "id").getD .null := by
  rw [jget_jset_ne _ _ _ _ (by decide)]

/-- Composing two entry passes of the ontology-domain shape, when both
maps hit, amounts to composing the per-drug updates. -/
theorem applyEntryWith_compose (u1 u2 : List (JVal × JVal) → JVal → JVal)
    (m1 m2 : List (JVal × List (JVal × JVal))) (e : JObj)
    (sub1 sub2 : List (JVal × JVal)) (ds : List JVal)
    (h1 : alFindJ ((jget e "id").getD .null) m1 = some sub1)
    (h2 : alFindJ ((jget e "id").getD .null) m2 = some sub2)
    (hE : jget e "extractedDrugs" = some (.arr ds)) :
    applyEntryWith u2 m2 (applyEntryWith u1 m1 (.obj e)) =
      .obj (jset e "extractedDrugs"
        (.arr (ds.map (fun drug => u2 sub2 (u1 sub1 drug))))) := by
  rw [applyEntryWith_found_arr u1 m1 e sub1 ds h1 hE]
  rw [applyEntryWith_found_arr u2 m2 _ sub2 (ds.map (u1 sub1))
    (by rw [entry_id_of_jset]; exact h2) (jget_jset_self _ _ _)]
  rw [jset_jset_same, List.map_map]
  rfl

theorem applyEntryWith_nonarr_id (upd : List (JVal × JVal) → JVal → JVal)
    (m : List (JVal × List (JVal × JVal))) (e : JObj)
    (hE : ∀ ds, jget e "extractedDrugs" ≠ some (.arr ds)) :
    applyEntryWith upd m (.obj e) = .obj e := by
  cases g : alFindJ ((jget e "id").getD .null) m with
  | none => exact applyEntryWith_notfound upd m e g
  | some sub =>
    cases hw : jget e "extractedDrugs" with
    | none => simp only [applyEntryWith, g, hw]
    | some w =>
      cases w with
      | arr ds => exact absurd hw (hE ds)
      | null => simp only [applyEntryWith, g, hw]
      | str s => simp only [applyEntryWith, g, hw]
      | num q => simp only [applyEntryWith, g, hw]
      | bool b => simp only [applyEntryWith, g, hw]
      | obj o => simp only [applyEntryWith, g, hw]

/-- Two different ontology-domain entry passes commute on the per-drug
content at every position. -/
theorem applyEntry_comm (k1 k2 : String)
    (m1 m2 : List (JVal × List (JVal × JVal))) (hk : k1 ≠ k2)
    (entry : JVal) (j : Nat) :
    (∀ f, f ≠ "ontology" →
      drugFieldOpt (entryDrugAt
        (applyEntryWith (applyDomainDrug k2) m2
          (applyEntryWith (applyDomainDrug k1) m1 entry)) j) f =
      drugFieldOpt (entryDrugAt
        (applyEntryWith (applyDomainDrug k1) m1
          (applyEntryWith (applyDomainDrug k2) m2 entry)) j) f) ∧
    (∀ kk,
      drugOntOpt (entryDrugAt
        (applyEntryWith (applyDomainDrug k2) m2
          (applyEntryWith (applyDomainDrug k1) m1 entry)) j) kk =
      drugOntOpt (entryDrugAt
        (applyEntryWith (applyDomainDrug k1) m1
          (applyEntryWith (applyDomainDrug k2) m2 entry)) j) kk) := by
  cases entry with
  | obj e =>
    by_cases harr : ∃ ds, jget e "extractedDrugs" = some (.arr ds)
    · obtain ⟨ds, hE⟩ := harr
      cases g1 : alFindJ ((jget e "id").getD .null) m1 with
      | none =>
        cases g2 : alFindJ ((jget e "id").getD .null) m2 with
        | none =>
          rw [applyEntryWith_notfound _ m1 e g1,
            applyEntryWith_notfound _ m2 e g2,
            applyEntryWith_notfound _ m1 e g1]
          exact ⟨fun _ _ => rfl, fun _ => rfl⟩
        | some sub2 =>
          rw [applyEntryWith_notfound _ m1 e g1,
            applyEntryWith_found_arr _ m2 e sub2 ds g2 hE,
            applyEntryWith_notfound _ m1 _
              (by rw [entry_id_of_jset]; exact g1)]
          exact ⟨fun _ _ => rfl, fun _ => rfl⟩
      | some sub1 =>
        cases g2 : alFindJ ((jget e "id").getD .null) m2 with
        | none =>
          rw [applyEntryWith_notfound _ m2 e g2,
            applyEntryWith_found_arr _ m1 e sub1 ds g1 hE,
            applyEntryWith_notfound _ m2 _
              (by rw [entry_id_of_jset]; exact g2)]
          exact ⟨fun _ _ => rfl, fun _ => rfl⟩
        | some sub2 =>
          rw [applyEntryWith_compose _ _ m1 m2 e sub1 sub2 ds g1 g2 hE,
            applyEntryWith_compose _ _ m2 m1 e sub2 sub1 ds g2 g1 hE]
          constructor
          · intro f hf
            simp only [entryDrugAt, jget_jset_self, List.get?_map]
            cases hj : ds.get? j with
            | none => rfl
            | some drug =>
              simp only [Option.map_some', drugFieldOpt]
              exact (applyDomainDrug_comm k1 k2 sub1 sub2 hk drug).1 f hf
          · intro kk
            simp only [entryDrugAt, jget_jset_self, List.get?_map]
            cases hj : ds.get? j with
            | none => rfl
            | some drug =>
              simp only [Option.map_some', drugOntOpt]
              exact (applyDomainDrug_comm k1 k2 sub1 sub2 hk drug).2 kk
    · have hnot : ∀ ds, jget e "extractedDrugs" ≠ some (.arr ds) :=
        fun ds h => harr ⟨ds, h⟩
      rw [applyEntryWith_nonarr_id _ m1 e hnot,
        applyEntryWith_nonarr_id _ m2 e hnot,
        applyEntryWith_nonarr_id _ m1 e hnot]
      exact ⟨fun _ _ => rfl, fun _ => rfl⟩
  | null => exact ⟨fun _ _ => rfl, fun _ => rfl⟩
  | str s => exact ⟨fun _ _ => rfl, fun _ => rfl⟩
  | num q => exact ⟨fun _ _ => rfl, fun _ => rfl⟩
  | bool b => exact ⟨fun _ _ => rfl, fun _ => rfl⟩
  | arr xs => exact ⟨fun _ _ => rfl, fun _ => rfl⟩

/-- One ontology-domain entry pass applied twice equals it applied
once. -/
theorem applyEntry_idem (k : String)
    (m : List (JVal × List (JVal × JVal))) (entry : JVal) :
    applyEntryWith (applyDomainDrug k) m
      (applyEntryWith (applyDomainDrug k) m entry) =
      applyEntryWith (applyDomainDrug k) m entry := by
  cases entry with
  | obj e =>
    by_cases harr : ∃ ds, jget e "extractedDrugs" = some (.arr ds)
    · obtain ⟨ds, hE⟩ := harr
      cases g : alFindJ ((jget e "id").getD .null) m with
      | none =>
        rw [applyEntryWith_notfound _ m e g, applyEntryWith_notfound _ m e g]
      | some sub =>
        rw [applyEntryWith_compose _ _ m m e sub sub ds g g hE,
          applyEntryWith_found_arr _ m e sub ds g hE]
        have hmap : ds.map (fun drug =>
            applyDomainDrug k sub (applyDomainDrug k sub drug)) =
            ds.map (applyDomainDrug k sub) :=
          List.map_congr_left (fun drug _ => applyDomainDrug_idem k sub drug)
        rw [hmap]
    · have hnot : ∀ ds, jget e "extractedDrugs" ≠ some (.arr ds) :=
        fun ds h => harr ⟨ds, h⟩
      rw [applyEntryWith_nonarr_id _ m e hnot,
        applyEntryWith_nonarr_id _ m e hnot]
  | null => rfl
  | str s => rfl
  | num q => rfl
  | bool b => rfl
  | arr xs => rfl

theorem drugAt_double_map (g1 g2 : JVal → JVal) (base : List JVal)
    (i j : Nat) :
    drugAt ((base.map g1).map g2) i j =
      match entryAt base i with
      | some entry => entryDrugAt (g2 (g1 entry)) j
      | none => none := by
  rw [drugAt_eq_entryDrugAt, entryAt_map, entryAt_map]
  cases entryAt base i <;> rfl

/-- **C4**: merging the per-domain enrichment trees of the ontology
shape (company / trial_design / biomarker_strategy) into the base tree
is commutative across distinct domain keys — applying the two domain
passes in either order yields the same per-drug `ontology` content and
the same remaining drug fields at every position — and idempotent:
merging the same enrichment tree twice is literally equal to merging it
once. -/
theorem c4_merge_comm_idem (base d1 d2 : List JVal) (k1 k2 : String)
    (f1 f2 : List String) (hk : k1 ≠ k2) :
    (∀ i j kk,
      drugOntologyAt (mergeDomainEnrichments k2 f2
        (mergeDomainEnrichments k1 f1 base d1) d2) i j kk =
      drugOntologyAt (mergeDomainEnrichments k1 f1
        (mergeDomainEnrichments k2 f2 base d2) d1) i j kk) ∧
    (∀ i j f, f ≠ "ontology" →
      drugFieldAt (mergeDomainEnrichments k2 f2
        (mergeDomainEnrichments k1 f1 base d1) d2) i j f =
      drugFieldAt (mergeDomainEnrichments k1 f1
        (mergeDomainEnrichments k2 f2 base d2) d1) i j f) ∧
    mergeDomainEnrichments k1 f1 (mergeDomainEnrichments k1 f1 base d1) d1
      = mergeDomainEnrichments k1 f1 base d1 := by
  refine ⟨?_, ?_, ?_⟩
  · intro i j kk
    unfold mergeDomainEnrichments
    rw [drugOntologyAt_eq, drugOntologyAt_eq, drugAt_double_map,
      drugAt_double_map]
    cases entryAt base i with
    | none => rfl
    | some entry =>
      exact (applyEntry_comm k1 k2 (buildDomainMap f1 d1)
        (buildDomainMap f2 d2) hk entry j).2 kk
  · intro i j f hf
    unfold mergeDomainEnrichments
    rw [drugFieldAt_eq, drugFieldAt_eq, drugAt_double_map,
      drugAt_double_map]
    cases entryAt base i with
    | none => rfl
    | some entry =>
      exact (applyEntry_comm k1 k2 (buildDomainMap f1 d1)
        (buildDomainMap f2 d2) hk entry j).1 f hf
  · unfold mergeDomainEnrichments
    rw [List.map_map]
    exact List.map_congr_left (fun entry _ =>
      applyEntry_idem k1 (buildDomainMap f1 d1) entry)

/-- A one-entry base tree with one named drug, and two enrichment
trees, used as witness input. -/
def c4Base : List JVal :=
  [.obj [("id", .str "e1"),
         ("extractedDrugs", .arr [.obj [("drugName", .str "D1")]])]]

def c4Company : List JVal :=
  [.obj [("id", .str "e1"),
         ("extractedDrugs", .arr [.obj [("drugName", .str "D1"),
                                        ("companyCleaned", .str "X Inc")]])]]

def c4Trial : List JVal :=
  [.obj [("id", .str "e1"),
         ("extractedDrugs", .arr [.obj [("drugName", .str "D1"),
                                        ("trialDesignCleaned",
                                         .str "phase 1")]])]]

/-- Witness for `c4_merge_comm_idem`: the company and trial_design
merges applied in both orders agree on the drug's `company` ontology
entry, and the company merge is idempotent on these trees. -/
theorem c4_merge_comm_idem_witness :
    drugOntologyAt (mergeDomainEnrichments "trial_design" trialDesignFields
      (mergeDomainEnrichments "company" companyFields c4Base c4Company)
      c4Trial) 0 0 "company" =
    drugOntologyAt (mergeDomainEnrichments "company" companyFields
      (mergeDomainEnrichments "trial_design" trialDesignFields c4Base
        c4Trial) c4Company) 0 0 "company" ∧
    mergeDomainEnrichments "company" companyFields
      (mergeDomainEnrichments "company" companyFields c4Base c4Company)
      c4Company =
    mergeDomainEnrichments "company" companyFields c4Base c4Company :=
  ⟨(c4_merge_comm_idem c4Base c4Company c4Trial "company" "trial_design"
      companyFields trialDesignFields (by decide)).1 0 0 "company",
   (c4_merge_comm_idem c4Base c4Company c4Trial "company" "trial_design"
      companyFields trialDesignFields (by decide)).2.2⟩

end Ontology
